import Mathlib

/-!
Verification of the PanelTraining map-widget core: the Overlay Reconciler
(`syncGeojson` in the unnamed sync script) and the Hover Spatial Index
(`_rebuildHoverIndex`, `_cellKeyFromPoint` and the `mousemove` handler in
`js/render.js`).

Shallow embedding conventions:
- JS objects used as string-keyed dictionaries are modelled as association
  lists with JS semantics: property read returns the (unique) binding,
  assignment replaces an existing binding in place or appends a new one at
  the end (preserving insertion order, as `Object.entries` iteration does),
  and `delete` drops the binding.
- JSON values (`geojson` payloads, feature properties) are an inductive
  `Json` type; `JSON.stringify` is modelled by `Json.stringify` and the
  template-literal coercion used by the tooltip text is `Json.display`.
- Leaflet layer objects are modelled by allocation identity: each call to
  `L.geoJSON(...)` yields a fresh numeric id (`nextLayerId` counter), so
  object identity of stored drawables is id equality.
- JS numbers are modelled as exact rationals; a projected coordinate that
  may be non-finite (`NaN`/`Infinity`, excluded by the `isFinite` check in
  `_rebuildHoverIndex`) is a `JsNum`, which is either a finite rational or
  the non-finite marker.
- `Math.sqrt` appears in the source only inside the monotone comparisons
  `d < bestDist` and `bestDist <= threshold` of nonnegative quantities, so
  the embedding compares squared distances against the squared threshold,
  which is equivalent because `Real.sqrt` is strictly monotone on
  nonnegative arguments.
-/

/-- JSON values, the shape of the `geojson` payloads and of per-feature
`properties` maps coming over the Python/JS boundary. -/
inductive Json where
  | null
  | bool (b : Bool)
  | num (n : Int)
  | str (s : String)
  | arr (elems : List Json)
  | obj (fields : List (String × Json))

mutual

/-- Models `JSON.stringify` on the `Json` embedding: a deterministic
serialization used by `syncGeojson` purely as a content fingerprint. -/
def Json.stringify : Json → String
  | Json.null => "null"
  | Json.bool true => "true"
  | Json.bool false => "false"
  | Json.num n => toString n
  | Json.str s => "\"" ++ s ++ "\""
  | Json.arr elems => "[" ++ Json.stringifyElems elems ++ "]"
  | Json.obj fields => "\x7b" ++ Json.stringifyFields fields ++ "\x7d"

/-- Comma-joined serialization of a JSON array body. -/
def Json.stringifyElems : List Json → String
  | [] => ""
  | [j] => Json.stringify j
  | j :: rest => Json.stringify j ++ "," ++ Json.stringifyElems rest

/-- Comma-joined serialization of a JSON object body. -/
def Json.stringifyFields : List (String × Json) → String
  | [] => ""
  | [(k, j)] => "\"" ++ k ++ "\":" ++ Json.stringify j
  | (k, j) :: rest => "\"" ++ k ++ "\":" ++ Json.stringify j ++ "," ++ Json.stringifyFields rest

end

/-- JS truthiness of a JSON value, as tested by `if (feature.properties.name)`. -/
def Json.truthy : Json → Bool
  | Json.null => false
  | Json.bool b => b
  | Json.num n => decide (n ≠ 0)
  | Json.str s => decide (s ≠ "")
  | Json.arr _ => true
  | Json.obj _ => true

mutual

/-- JS template-literal string coercion of a JSON value, as used by the
tooltip text builder. -/
def Json.display : Json → String
  | Json.null => "null"
  | Json.bool true => "true"
  | Json.bool false => "false"
  | Json.num n => toString n
  | Json.str s => s
  | Json.arr elems => Json.displayElems elems
  | Json.obj _ => "[object Object]"

/-- JS `Array.prototype.toString`: elements joined by a comma, with `null`
rendering as the empty string inside an array. -/
def Json.displayElems : List Json → String
  | [] => ""
  | [Json.null] => ""
  | [j] => Json.display j
  | Json.null :: rest => "," ++ Json.displayElems rest
  | j :: rest => Json.display j ++ "," ++ Json.displayElems rest

end

/-! JS-object dictionary operations on association lists. -/

/-- JS property read `l[k]`: the value of the unique binding of `k`, if any. -/
def objGet {κ V : Type} [DecidableEq κ] : List (κ × V) → κ → Option V
  | [], _ => none
  | (k, v) :: rest, n => if k = n then some v else objGet rest n

/-- JS property assignment `l[k] = v`: replaces the existing binding in place
(keeping insertion order) or appends a new binding at the end. -/
def objSet {κ V : Type} [DecidableEq κ] : List (κ × V) → κ → V → List (κ × V)
  | [], k, v => [(k, v)]
  | (k₀, v₀) :: rest, k, v =>
    if k₀ = k then (k, v) :: rest else (k₀, v₀) :: objSet rest k v

/-- JS `delete l[k]`: drops the binding of `k`. -/
def objDelete {κ V : Type} [DecidableEq κ] : List (κ × V) → κ → List (κ × V)
  | [], _ => []
  | (k₀, v) :: rest, k => if k₀ = k then objDelete rest k else (k₀, v) :: objDelete rest k

/-- JS `Object.keys(l)` in insertion order. -/
def objKeys {κ V : Type} (l : List (κ × V)) : List κ := l.map Prod.fst

/-- Value of the last occurrence of key `k` in a raw key-value list (the
binding that survives when the list is poured into a JS object). -/
def objLast {κ V : Type} [DecidableEq κ] : List (κ × V) → κ → Option V
  | [], _ => none
  | (k₀, v) :: rest, k =>
    match objLast rest k with
    | some w => some w
    | none => if k₀ = k then some v else none

/-! Overlay Reconciler (`syncGeojson`). -/

/-- One entry of the merged desired-state map: `{geojson: v, hoverable: b}`. -/
structure Entry where
  geojson : Json
  hoverable : Bool

/-- The per-map-instance reconciler state: the three per-overlay tables, the
set of drawables attached to the map surface and to the layer-selection
control (by drawable id), and the drawable-allocation counter. -/
structure SyncState where
  geojsonLayers : List (String × Nat)
  geojsonData : List (String × String)
  geojsonHoverable : List (String × Bool)
  mapLayers : List Nat
  controlLayers : List Nat
  nextLayerId : Nat

/-- The freshly initialized bookkeeping created by the
`if (!state.geojsonLayers)` block: all tables empty. -/
def initState : SyncState :=
  { geojsonLayers := [], geojsonData := [], geojsonHoverable := [],
    mapLayers := [], controlLayers := [], nextLayerId := 0 }

/-- `map.removeLayer` / `control.removeLayer` on the attachment lists:
removing an id that is not attached is a no-op (the try/catch swallow). -/
def listRemove : List Nat → Nat → List Nat
  | [], _ => []
  | x :: rest, y => if x = y then listRemove rest y else x :: listRemove rest y

/-- Merge of the two input dicts into the authoritative desired map:
static entries first with `hoverable: false`, then hover entries overwrite
with `hoverable: true` (hover wins on name collision). -/
def mergeDicts (staticDict hoverDict : List (String × Json)) : List (String × Entry) :=
  hoverDict.foldl (fun acc kv => objSet acc kv.1 ⟨kv.2, true⟩)
    (staticDict.foldl (fun acc kv => objSet acc kv.1 ⟨kv.2, false⟩) [])

/-- The re-creation test of the upsert pass: the name is new, or the stored
serialized content differs, or the stored hover flag differs. -/
def needsCreate (s : SyncState) (name : String) (e : Entry) : Bool :=
  (objGet s.geojsonLayers name).isNone
    || decide (objGet s.geojsonData name ≠ some (Json.stringify e.geojson))
    || decide (objGet s.geojsonHoverable name ≠ some e.hoverable)

/-- One step of the removal pass, for one currently materialized `name`:
if the name is still desired do nothing, otherwise detach its drawable from
the map surface and the layer control and drop all three table entries.
The second component counts removals performed. -/
def removeOne (dk : List String) : SyncState × Nat → String → SyncState × Nat :=
  fun sc name =>
    if name ∈ dk then sc
    else
      let s := sc.1
      let s₁ :=
        match objGet s.geojsonLayers name with
        | some lyr =>
          { s with mapLayers := listRemove s.mapLayers lyr,
                   controlLayers := listRemove s.controlLayers lyr }
        | none => s
      ({ s₁ with geojsonLayers := objDelete s₁.geojsonLayers name,
                 geojsonData := objDelete s₁.geojsonData name,
                 geojsonHoverable := objDelete s₁.geojsonHoverable name }, sc.2 + 1)

/-- One step of the upsert pass, for one desired `(name, entry)`: skip when
`needsCreate` is false; otherwise detach the old drawable (if any), build a
fresh drawable, store it together with the new fingerprint and hover flag,
and attach it to the map surface and the layer control. The second
component counts drawable creations (the `changedVisiblePoints` signal). -/
def upsertOne : SyncState × Nat → String × Entry → SyncState × Nat :=
  fun sc ne =>
    let s := sc.1
    let name := ne.1
    let e := ne.2
    if needsCreate s name e = false then sc
    else
      let s₁ :=
        match objGet s.geojsonLayers name with
        | some old =>
          { s with mapLayers := listRemove s.mapLayers old,
                   controlLayers := listRemove s.controlLayers old }
        | none => s
      let lid := s₁.nextLayerId
      ({ s₁ with mapLayers := s₁.mapLayers ++ [lid],
                 geojsonLayers := objSet s₁.geojsonLayers name lid,
                 geojsonData := objSet s₁.geojsonData name (Json.stringify e.geojson),
                 geojsonHoverable := objSet s₁.geojsonHoverable name e.hoverable,
                 controlLayers := s₁.controlLayers ++ [lid],
                 nextLayerId := lid + 1 }, sc.2 + 1)

/-- Result of one reconciliation pass: the new state plus how many removals
and drawable creations happened and how many hover-index rebuild signals
were issued during the pass. -/
structure SyncResult where
  state : SyncState
  removals : Nat
  creates : Nat
  rebuilds : Nat

/-- The whole `syncGeojson` pass: merge the two input dicts, remove
materialized overlays that are no longer desired, upsert every desired
overlay, and finally call `state._rebuildHoverIndex()` (the source calls it
unconditionally, once per pass). -/
def syncGeojson (staticDict hoverDict : List (String × Json)) (s : SyncState) : SyncResult :=
  let desired := mergeDicts staticDict hoverDict
  let dk := objKeys desired
  let r₁ := (objKeys s.geojsonLayers).foldl (removeOne dk) (s, 0)
  let r₂ := desired.foldl upsertOne (r₁.1, 0)
  { state := r₂.1, removals := r₁.2, creates := r₂.2, rebuilds := 1 }

/-! Hover Spatial Index (`setupHover` in `js/render.js`). -/

/-- A JS number that may be non-finite: `latLngToContainerPoint` can return
`NaN`/`Infinity` coordinates at extreme projections, which
`_rebuildHoverIndex` filters out with `isFinite`. -/
inductive JsNum where
  | fin (q : ℚ)
  | nonfinite

/-- A geographic feature as carried through the index: its open `properties`
map, which may be absent entirely. -/
structure Feature where
  properties : Option (List (String × Json))

/-- One sublayer produced by `L.geoJSON`: `latlng?` is `some` exactly when
the sublayer has a `getLatLng` position accessor (point features); non-point
sublayers have none and are skipped by the index build. -/
structure SubLayer where
  latlng? : Option (ℚ × ℚ)
  feature : Option Feature

/-- A materialized drawable as seen by the index build: its allocation id
(the handle `map.hasLayer` is asked about) and its sublayers. -/
structure Layer where
  id : Nat
  subs : List SubLayer

/-- A Hover Candidate: viewport pixel position at rebuild time, originating
geographic coordinate, and the source feature for the event payload. -/
structure Candidate where
  x : ℚ
  y : ℚ
  latlng : ℚ × ℚ
  feature : Option Feature

/-- The grid index: cell coordinate `(cx, cy)` to the candidates bucketed
in that cell (the JS `Map` keyed by the string `cx + ":" + cy`). -/
abbrev HoverIndex := List ((Int × Int) × List Candidate)

/-- `state.hoverThresholdPx = 25`: max pixel distance to snap. -/
def hoverThresholdPx : ℚ := 25

/-- `state.gridCell = state.hoverThresholdPx`: grid cell size in pixels. -/
def gridCell : ℚ := hoverThresholdPx

/-- `_cellKeyFromPoint` with cell size `g`: integer grid cell indices by
flooring each pixel coordinate divided by the cell size. -/
def cellKeyFromPoint (g : ℚ) (pt : ℚ × ℚ) : Int × Int :=
  (⌊pt.1 / g⌋, ⌊pt.2 / g⌋)

/-- Squared straight-line pixel distance between the query point and a
candidate (the source compares `Math.sqrt` of this; both comparisons in the
source are monotone, so squared form is equivalent). -/
def distSq (p : ℚ × ℚ) (c : Candidate) : ℚ :=
  (p.1 - c.x) ^ 2 + (p.2 - c.y) ^ 2

/-- Insert a candidate into its cell bucket: create the bucket if missing,
else push onto the existing array. -/
def indexInsert (idx : HoverIndex) (k : Int × Int) (c : Candidate) : HoverIndex :=
  objSet idx k ((objGet idx k).getD [] ++ [c])

/-- The candidates bucketed in cell `k` (`hoverIndex.get(k)`, empty when the
cell is absent). -/
def cellCandidates (idx : HoverIndex) (k : Int × Int) : List Candidate :=
  (objGet idx k).getD []

/-- All candidates stored anywhere in the index. -/
def allCandidates (idx : HoverIndex) : List Candidate :=
  (idx.map Prod.snd).flatten

/-- The nine cells visited by the 3x3 neighborhood search, in loop order
(`dy` outer from -1 to 1, `dx` inner from -1 to 1). -/
def neighborhoodCells (c : Int × Int) : List (Int × Int) :=
  [(c.1 - 1, c.2 - 1), (c.1, c.2 - 1), (c.1 + 1, c.2 - 1),
   (c.1 - 1, c.2), (c.1, c.2), (c.1 + 1, c.2),
   (c.1 - 1, c.2 + 1), (c.1, c.2 + 1), (c.1 + 1, c.2 + 1)]

/-- The running-minimum step of the scan: keep the incumbent unless the new
candidate is strictly closer (`d < bestDist`; ties keep first encountered).
The accumulator holds the best candidate with its squared distance, `none`
standing for the initial `bestDist = Infinity`. -/
def scanStep (p : ℚ × ℚ) (acc : Option (Candidate × ℚ)) (c : Candidate) :
    Option (Candidate × ℚ) :=
  let d := distSq p c
  match acc with
  | none => some (c, d)
  | some (b, bd) => if d < bd then some (c, d) else some (b, bd)

/-- Scan all candidates of one cell bucket. -/
def scanCell (p : ℚ × ℚ) (acc : Option (Candidate × ℚ)) (cs : List Candidate) :
    Option (Candidate × ℚ) :=
  cs.foldl (scanStep p) acc

/-- The pointer-move query: scan the 3x3 neighborhood of the query point
for the running-minimum candidate, then accept it only when its distance is
within the hover threshold (`best && bestDist <= state.hoverThresholdPx`). -/
def queryNearest (idx : HoverIndex) (p : ℚ × ℚ) : Option Candidate :=
  let cell := cellKeyFromPoint gridCell p
  let best := (neighborhoodCells cell).foldl
    (fun acc k => scanCell p acc (cellCandidates idx k)) none
  match best with
  | some (c, d) => if d ≤ hoverThresholdPx ^ 2 then some c else none
  | none => none

/-- The `eachLayer` callback of `_rebuildHoverIndex`: a sublayer with a
position accessor (`getLatLng`) is projected with `proj` and, when both
pixel coordinates are finite, bucketed into its grid cell together with its
source feature; non-point sublayers and non-finite projections leave the
index unchanged. -/
def addSub (proj : ℚ × ℚ → JsNum × JsNum) (idx : HoverIndex) (sub : SubLayer) : HoverIndex :=
  match sub.latlng? with
  | none => idx
  | some ll =>
    match proj ll with
    | (JsNum.fin x, JsNum.fin y) =>
      indexInsert idx (cellKeyFromPoint gridCell (x, y)) ⟨x, y, ll, sub.feature⟩
    | _ => idx

/-- The per-overlay step of `_rebuildHoverIndex`: skip overlays that are
not hover-eligible (`!state.geojsonHoverable[nm]`, absent meaning false) or
not currently attached to the map surface (`map.hasLayer`); otherwise walk
the sublayers. -/
def addLayer (proj : ℚ × ℚ → JsNum × JsNum) (geojsonHoverable : List (String × Bool))
    (mapAttached : List Nat) (idx : HoverIndex) (nl : String × Layer) : HoverIndex :=
  if (objGet geojsonHoverable nl.1).getD false = false then idx
  else if nl.2.id ∈ mapAttached then nl.2.subs.foldl (addSub proj) idx
  else idx

/-- `_rebuildHoverIndex`: rebuild the grid from scratch from the overlay
table, the hover-eligibility table and the set of drawables attached to
the map surface. -/
def rebuildHoverIndex (proj : ℚ × ℚ → JsNum × JsNum)
    (geojsonLayers : List (String × Layer)) (geojsonHoverable : List (String × Bool))
    (mapAttached : List Nat) : HoverIndex :=
  geojsonLayers.foldl (addLayer proj geojsonHoverable mapAttached) []

/-- What it means for a sublayer to contribute candidate `c` under
projection `proj`: it has a position accessor, the projection of its
position is finite in both pixel coordinates, and `c` records exactly that
pixel position, geographic position and source feature. -/
def subEmits (proj : ℚ × ℚ → JsNum × JsNum) (sub : SubLayer) (c : Candidate) : Prop :=
  ∃ ll x y, sub.latlng? = some ll ∧ proj ll = (JsNum.fin x, JsNum.fin y)
    ∧ c = ⟨x, y, ll, sub.feature⟩

/-! Hover Interaction Controller: the per-frame part of the `mousemove`
handler and the tooltip text builder. -/

/-- `featureText`: prefer a truthy `name` property; else the comma-joined
`key: value` rendering of all properties; an absent feature or absent
properties map yields the empty string. -/
def joinedProps (props : List (String × Json)) : String :=
  String.intercalate ", " (props.map fun kv => kv.1 ++ ": " ++ Json.display kv.2)

/-- The source `featureText(feature)` function. -/
def featureText (feature : Option Feature) : String :=
  match feature with
  | some f =>
    match f.properties with
    | some props =>
      match objGet props "name" with
      | some v => if v.truthy then v.display else joinedProps props
      | none => joinedProps props
    | none => ""
  | none => ""

/-- Observable state of the reusable hover marker: position, tooltip text,
whether it is attached to the map, and whether its tooltip is open. -/
structure HoverMarkerState where
  pos : ℚ × ℚ
  tooltip : String
  onMap : Bool
  tooltipOpen : Bool

/-- Outbound notifications dispatched by the handler: the bubbling
`hover_layer` CustomEvent whose detail carries the hovered source feature. -/
inductive HoverEvent where
  | hoverLayer (feature : Option Feature)

/-- The body of the per-frame callback after the pointer position has been
projected to pixels: query the index and either show the marker at the hit
(set position, set tooltip text, attach if absent, open tooltip, dispatch
the `hover_layer` event) or hide it (detach if present, close tooltip,
dispatch nothing). -/
def processMove (idx : HoverIndex) (p : ℚ × ℚ) (m : HoverMarkerState) :
    HoverMarkerState × List HoverEvent :=
  match queryNearest idx p with
  | some best =>
    let m := { m with pos := best.latlng }
    let m := { m with tooltip := featureText best.feature }
    let m := if m.onMap then m else { m with onMap := true }
    let m := { m with tooltipOpen := true }
    (m, [HoverEvent.hoverLayer best.feature])
  | none =>
    let m := if m.onMap then { m with onMap := false } else m
    let m := { m with tooltipOpen := false }
    (m, [])

/-! Proof scaffolding predicates and concrete fixtures. -/

/-- Index well-formedness: every bucketed candidate sits in the cell its
pixel position hashes to. `_rebuildHoverIndex` only ever inserts a
candidate at its own cell key, so every built index satisfies this. -/
def wellFormedIndex (idx : HoverIndex) : Prop :=
  ∀ kc ∈ idx, ∀ c ∈ kc.2, cellKeyFromPoint gridCell (c.x, c.y) = kc.1

/-- Invariant of the running-minimum scan: the accumulator is `none` only
before anything was scanned, and otherwise holds a scanned candidate whose
recorded distance is its true squared distance and is minimal among
everything scanned so far. -/
def scanInv (p : ℚ × ℚ) (acc : Option (Candidate × ℚ)) (seen : List Candidate) : Prop :=
  match acc with
  | none => seen = []
  | some bd => bd.2 = distSq p bd.1 ∧ bd.1 ∈ seen ∧ ∀ c ∈ seen, bd.2 ≤ distSq p c

/-- A concrete feature fixture: one `name` property. -/
def exFeature : Feature := ⟨some [("name", Json.str "Tower")]⟩

/-- A concrete candidate fixture at pixel (0, 0). -/
def exCand : Candidate := ⟨0, 0, (7, 8), some exFeature⟩

/-- A concrete one-cell index fixture holding `exCand`. -/
def exIdx : HoverIndex := [((0, 0), [exCand])]

/-- A concrete query point fixture at pixel (0, 0). -/
def exP : ℚ × ℚ := (0, 0)

/-- A concrete hover-marker state fixture (hidden marker). -/
def exMarker : HoverMarkerState := ⟨(0, 0), "", false, false⟩

/-! Dictionary lemmas. -/

/-- Reading back the key just assigned yields the assigned value. -/
theorem objGet_objSet_self {κ V : Type} [DecidableEq κ] (l : List (κ × V)) (k : κ) (v : V) :
    objGet (objSet l k v) k = some v := by
  induction l with
  | nil => simp [objSet, objGet]
  | cons hd t ih =>
    obtain ⟨k₀, v₀⟩ := hd
    by_cases hk : k₀ = k
    · simp [objSet, hk, objGet]
    · simp [objSet, hk, objGet, ih]

/-- Assignment to one key leaves every other key unchanged. -/
theorem objGet_objSet_other {κ V : Type} [DecidableEq κ] (l : List (κ × V)) (k n : κ) (v : V)
    (h : n ≠ k) : objGet (objSet l k v) n = objGet l n := by
  have hkn : ¬k = n := fun hh => h hh.symm
  induction l with
  | nil => simp [objSet, objGet, hkn]
  | cons hd t ih =>
    obtain ⟨k₀, v₀⟩ := hd
    by_cases hk : k₀ = k
    · simp [objSet, objGet, hk, hkn]
    · by_cases hn : k₀ = n
      · simp [objSet, objGet, hk, hn, h]
      · simp [objSet, objGet, hk, hn, ih]

/-- A key is listed exactly when reading it yields a value. -/
theorem mem_objKeys_iff {κ V : Type} [DecidableEq κ] (l : List (κ × V)) (n : κ) :
    n ∈ objKeys l ↔ (objGet l n).isSome := by
  induction l with
  | nil => simp [objKeys, objGet]
  | cons hd t ih =>
    obtain ⟨k, v⟩ := hd
    simp only [objKeys, List.map_cons, List.mem_cons, objGet]
    by_cases hk : k = n
    · simp [hk]
    · rw [if_neg hk]
      constructor
      · intro hm
        rcases hm with h₁ | h₂
        · exact absurd h₁.symm hk
        · exact ih.mp h₂
      · intro hs
        exact Or.inr (ih.mpr hs)

/-- A successful read is a binding of the list. -/
theorem objGet_mem {κ V : Type} [DecidableEq κ] (l : List (κ × V)) (n : κ) (v : V) :
    objGet l n = some v → (n, v) ∈ l := by
  induction l with
  | nil => intro h; simp [objGet] at h
  | cons hd t ih =>
    intro h
    obtain ⟨k, w⟩ := hd
    by_cases hk : k = n
    · rw [objGet.eq_def] at h
      simp only [if_pos hk] at h
      injection h with hv
      rw [← hk, ← hv]
      exact List.mem_cons_self _ _
    · rw [objGet.eq_def] at h
      simp only [if_neg hk] at h
      exact List.mem_cons_of_mem _ (ih h)

/-- The key of a binding is listed. -/
theorem key_mem_of_mem {κ V : Type} (l : List (κ × V)) (n : κ) (v : V)
    (h : (n, v) ∈ l) : n ∈ objKeys l :=
  List.mem_map_of_mem Prod.fst h

/-- With duplicate-free keys, every binding is found by a read. -/
theorem mem_objGet_of_nodup {κ V : Type} [DecidableEq κ] (l : List (κ × V)) (n : κ) (v : V) :
    (objKeys l).Nodup → (n, v) ∈ l → objGet l n = some v := by
  induction l with
  | nil => intro _ h; simp at h
  | cons hd t ih =>
    intro hnd h
    obtain ⟨k, w⟩ := hd
    simp only [objKeys, List.map_cons, List.nodup_cons] at hnd
    rcases List.mem_cons.mp h with h₁ | h₂
    · cases h₁
      simp [objGet]
    · have hkn : ¬k = n := by
        intro he
        exact hnd.1 (he ▸ key_mem_of_mem t n v h₂)
      rw [objGet.eq_def]
      simp only [if_neg hkn]
      exact ih hnd.2 h₂

/-- Assignment adds exactly the assigned key to the key set. -/
theorem mem_objKeys_objSet {κ V : Type} [DecidableEq κ] (l : List (κ × V)) (k n : κ) (v : V) :
    n ∈ objKeys (objSet l k v) ↔ n ∈ objKeys l ∨ n = k := by
  induction l with
  | nil => simp [objSet, objKeys]
  | cons hd t ih =>
    obtain ⟨k₀, v₀⟩ := hd
    by_cases hk : k₀ = k
    · rw [objSet.eq_def]
      simp only [if_pos hk, objKeys, List.map_cons, List.mem_cons]
      constructor
      · rintro (h | h)
        · exact Or.inr h
        · exact Or.inl (Or.inr h)
      · rintro ((h | h) | h)
        · exact Or.inl (h.trans hk)
        · exact Or.inr h
        · exact Or.inl h
    · rw [objSet.eq_def]
      simp only [if_neg hk, objKeys, List.map_cons, List.mem_cons]
      constructor
      · rintro (h | h)
        · exact Or.inl (Or.inl h)
        · rcases ih.mp h with h₁ | h₂
          · exact Or.inl (Or.inr h₁)
          · exact Or.inr h₂
      · rintro ((h | h) | h)
        · exact Or.inl h
        · exact Or.inr (ih.mpr (Or.inl h))
        · exact Or.inr (ih.mpr (Or.inr h))

/-- Assignment preserves duplicate-freeness of the key set. -/
theorem objSet_nodup {κ V : Type} [DecidableEq κ] (l : List (κ × V)) (k : κ) (v : V) :
    (objKeys l).Nodup → (objKeys (objSet l k v)).Nodup := by
  induction l with
  | nil => intro _; simp [objSet, objKeys]
  | cons hd t ih =>
    intro h
    obtain ⟨k₀, v₀⟩ := hd
    simp only [objKeys, List.map_cons, List.nodup_cons] at h
    by_cases hk : k₀ = k
    · rw [objSet.eq_def]
      simp only [if_pos hk, objKeys, List.map_cons, List.nodup_cons]
      exact ⟨hk ▸ h.1, h.2⟩
    · rw [objSet.eq_def]
      simp only [if_neg hk, objKeys, List.map_cons, List.nodup_cons]
      refine ⟨?_, ih h.2⟩
      intro hmem
      rcases (mem_objKeys_objSet t k k₀ v).mp hmem with h₁ | h₂
      · exact h.1 h₁
      · exact hk h₂

/-- Deleting a key makes reading it fail. -/
theorem objGet_objDelete_self {κ V : Type} [DecidableEq κ] (l : List (κ × V)) (k : κ) :
    objGet (objDelete l k) k = none := by
  induction l with
  | nil => simp [objDelete, objGet]
  | cons hd t ih =>
    obtain ⟨k₀, v⟩ := hd
    by_cases hk : k₀ = k
    · simp [objDelete, hk, ih]
    · simp [objDelete, hk, objGet, ih]

/-- Deleting one key leaves every other key unchanged. -/
theorem objGet_objDelete_other {κ V : Type} [DecidableEq κ] (l : List (κ × V)) (k n : κ)
    (h : n ≠ k) : objGet (objDelete l k) n = objGet l n := by
  induction l with
  | nil => simp [objDelete]
  | cons hd t ih =>
    obtain ⟨k₀, v⟩ := hd
    by_cases hk : k₀ = k
    · have hkn : ¬k = n := fun hh => h hh.symm
      simp [objDelete, objGet, hk, hkn, ih]
    · by_cases hn : k₀ = n
      · simp [objDelete, objGet, hk, hn, h, ih]
      · simp [objDelete, objGet, hk, hn, ih]

/-- The last-occurrence read succeeds exactly for listed keys. -/
theorem objLast_isSome_iff {κ V : Type} [DecidableEq κ] (l : List (κ × V)) (n : κ) :
    (objLast l n).isSome ↔ n ∈ objKeys l := by
  induction l with
  | nil => simp [objLast, objKeys]
  | cons hd t ih =>
    obtain ⟨k, v⟩ := hd
    simp only [objKeys, List.map_cons, List.mem_cons]
    cases h : objLast t n with
    | some w =>
      have ht : n ∈ objKeys t := ih.mp (by rw [h]; rfl)
      rw [objLast.eq_def]
      simp only [h]
      simp only [Option.isSome_some, true_iff]
      exact Or.inr ht
    | none =>
      have ht : n ∉ objKeys t := by
        intro hm
        have hs := ih.mpr hm
        rw [h] at hs
        simp at hs
      rw [objLast.eq_def]
      simp only [h]
      by_cases hk : k = n
      · simp [hk]
      · rw [if_neg hk]
        simp only [Option.isSome_none, Bool.false_eq_true, false_iff]
        intro hm
        rcases hm with h₁ | h₂
        · exact hk h₁.symm
        · exact ht h₂

/-! Merge lemmas: pouring a raw key-value list into a JS object. -/

/-- Reading a key after pouring a list of tagged entries into a dictionary:
the last occurrence in the list wins; keys not in the list read from the
starting dictionary. -/
theorem foldl_objSet_objGet {κ V W : Type} [DecidableEq κ] (g : V → W)
    (l : List (κ × V)) (acc : List (κ × W)) (n : κ) :
    objGet (l.foldl (fun a kv => objSet a kv.1 (g kv.2)) acc) n
      = match objLast l n with
        | some v => some (g v)
        | none => objGet acc n := by
  induction l generalizing acc with
  | nil => simp [objLast]
  | cons kv t ih =>
    obtain ⟨k, v⟩ := kv
    simp only [List.foldl_cons]
    rw [ih]
    cases h : objLast t n with
    | some w =>
      rw [objLast.eq_def]
      simp only [h]
    | none =>
      rw [objLast.eq_def]
      simp only [h]
      by_cases hk : k = n
      · rw [if_pos hk, hk, objGet_objSet_self]
      · rw [if_neg hk, objGet_objSet_other acc k n (g v) (fun hh => hk hh.symm)]

/-- Pouring a list into a dictionary with duplicate-free keys keeps the
keys duplicate-free. -/
theorem foldl_objSet_nodup {κ V W : Type} [DecidableEq κ] (g : V → W)
    (l : List (κ × V)) (acc : List (κ × W)) (h : (objKeys acc).Nodup) :
    (objKeys (l.foldl (fun a kv => objSet a kv.1 (g kv.2)) acc)).Nodup := by
  induction l generalizing acc with
  | nil => exact h
  | cons kv t ih =>
    simp only [List.foldl_cons]
    exact ih _ (objSet_nodup acc kv.1 (g kv.2) h)

/-- The merged desired map has duplicate-free names. -/
theorem mergeDicts_nodup (sd hd : List (String × Json)) :
    (objKeys (mergeDicts sd hd)).Nodup := by
  unfold mergeDicts
  exact foldl_objSet_nodup (fun v => (⟨v, true⟩ : Entry)) hd _
    (foldl_objSet_nodup (fun v => (⟨v, false⟩ : Entry)) sd [] (by simp [objKeys]))

/-- Reading the merged desired map: a name with a hover entry resolves to
the (last) hover content flagged hoverable; otherwise to the (last) static
content flagged non-hoverable; otherwise to nothing. -/
theorem mergeDicts_objGet (sd hd : List (String × Json)) (n : String) :
    objGet (mergeDicts sd hd) n
      = match objLast hd n with
        | some v => some ⟨v, true⟩
        | none =>
          match objLast sd n with
          | some v => some ⟨v, false⟩
          | none => none := by
  unfold mergeDicts
  rw [foldl_objSet_objGet (fun v => (⟨v, true⟩ : Entry)) hd _ n]
  cases h : objLast hd n with
  | some w => rfl
  | none =>
    simp only
    rw [foldl_objSet_objGet (fun v => (⟨v, false⟩ : Entry)) sd [] n]
    cases objLast sd n with
    | some w => rfl
    | none => rfl

/-! Removal pass lemmas. -/

/-- Effect of one removal step on the three tables and the id counter. -/
theorem removeOne_state (dk : List String) (sc : SyncState × Nat) (k : String) :
    ((removeOne dk sc k).1.geojsonLayers
        = if k ∈ dk then sc.1.geojsonLayers else objDelete sc.1.geojsonLayers k)
    ∧ ((removeOne dk sc k).1.geojsonData
        = if k ∈ dk then sc.1.geojsonData else objDelete sc.1.geojsonData k)
    ∧ ((removeOne dk sc k).1.geojsonHoverable
        = if k ∈ dk then sc.1.geojsonHoverable else objDelete sc.1.geojsonHoverable k)
    ∧ (removeOne dk sc k).1.nextLayerId = sc.1.nextLayerId := by
  by_cases h : k ∈ dk
  · simp [removeOne, h]
  · cases hg : objGet sc.1.geojsonLayers k <;> simp [removeOne, h, hg]

/-- Names that are still desired, or that were never materialized, keep
their table entries (and the id counter is untouched) across the removal
pass. -/
theorem removal_fold_preserves (dk ks : List String) (sc : SyncState × Nat) (n : String)
    (h : n ∈ dk ∨ n ∉ ks) :
    (objGet ((ks.foldl (removeOne dk) sc).1.geojsonLayers) n = objGet sc.1.geojsonLayers n)
    ∧ (objGet ((ks.foldl (removeOne dk) sc).1.geojsonData) n = objGet sc.1.geojsonData n)
    ∧ (objGet ((ks.foldl (removeOne dk) sc).1.geojsonHoverable) n
        = objGet sc.1.geojsonHoverable n)
    ∧ (ks.foldl (removeOne dk) sc).1.nextLayerId = sc.1.nextLayerId := by
  induction ks generalizing sc with
  | nil => simp
  | cons k t ih =>
    simp only [List.foldl_cons]
    obtain ⟨s1, s2, s3, s4⟩ := removeOne_state dk sc k
    have hrec := ih (removeOne dk sc k)
      (by
        rcases h with h | h
        · exact Or.inl h
        · exact Or.inr fun hm => h (List.mem_cons_of_mem _ hm))
    by_cases hk : k ∈ dk
    · rw [if_pos hk] at s1 s2 s3
      rcases hrec with ⟨r1, r2, r3, r4⟩
      exact ⟨by rw [r1, s1], by rw [r2, s2], by rw [r3, s3], by rw [r4, s4]⟩
    · have hnk : n ≠ k := by
        rcases h with h | h
        · intro he; exact hk (he ▸ h)
        · intro he; exact h (he ▸ List.mem_cons_self k t)
      rw [if_neg hk] at s1 s2 s3
      rcases hrec with ⟨r1, r2, r3, r4⟩
      refine ⟨?_, ?_, ?_, by rw [r4, s4]⟩
      · rw [r1, s1, objGet_objDelete_other _ _ _ hnk]
      · rw [r2, s2, objGet_objDelete_other _ _ _ hnk]
      · rw [r3, s3, objGet_objDelete_other _ _ _ hnk]

/-- Once a name has no entries, the rest of the removal pass keeps it so. -/
theorem removal_fold_none_stays (dk ks : List String) (sc : SyncState × Nat) (n : String)
    (h1 : objGet sc.1.geojsonLayers n = none) (h2 : objGet sc.1.geojsonData n = none)
    (h3 : objGet sc.1.geojsonHoverable n = none) :
    (objGet ((ks.foldl (removeOne dk) sc).1.geojsonLayers) n = none)
    ∧ (objGet ((ks.foldl (removeOne dk) sc).1.geojsonData) n = none)
    ∧ (objGet ((ks.foldl (removeOne dk) sc).1.geojsonHoverable) n = none) := by
  induction ks generalizing sc with
  | nil => exact ⟨h1, h2, h3⟩
  | cons k t ih =>
    simp only [List.foldl_cons]
    obtain ⟨s1, s2, s3, _⟩ := removeOne_state dk sc k
    by_cases hk : k ∈ dk
    · rw [if_pos hk] at s1 s2 s3
      exact ih _ (s1 ▸ h1) (s2 ▸ h2) (s3 ▸ h3)
    · rw [if_neg hk] at s1 s2 s3
      by_cases hnk : n = k
      · refine ih _ ?_ ?_ ?_ <;>
          rw [hnk] <;> simp [s1, s2, s3, objGet_objDelete_self]
      · refine ih _ ?_ ?_ ?_ <;>
          simp [s1, s2, s3, objGet_objDelete_other _ _ _ hnk, h1, h2, h3]

/-- A materialized name that is no longer desired has no entry in any of
the three tables after the removal pass. -/
theorem removal_fold_removes (dk ks : List String) (sc : SyncState × Nat) (n : String)
    (h1 : n ∉ dk) (h2 : n ∈ ks) :
    (objGet ((ks.foldl (removeOne dk) sc).1.geojsonLayers) n = none)
    ∧ (objGet ((ks.foldl (removeOne dk) sc).1.geojsonData) n = none)
    ∧ (objGet ((ks.foldl (removeOne dk) sc).1.geojsonHoverable) n = none) := by
  induction ks generalizing sc with
  | nil => simp at h2
  | cons k t ih =>
    simp only [List.foldl_cons]
    obtain ⟨s1, s2, s3, _⟩ := removeOne_state dk sc k
    by_cases hnk : n = k
    · have hkdk : k ∉ dk := hnk ▸ h1
      rw [if_neg hkdk] at s1 s2 s3
      refine removal_fold_none_stays dk t _ n ?_ ?_ ?_ <;>
        rw [hnk] <;> simp [s1, s2, s3, objGet_objDelete_self]
    · have hmt : n ∈ t := by
        rcases List.mem_cons.mp h2 with h | h
        · exact absurd h hnk
        · exact h
      exact ih _ hmt

/-- A removal step for a still-desired name changes nothing at all. -/
theorem removeOne_id_of_mem (dk : List String) (sc : SyncState × Nat) (k : String)
    (h : k ∈ dk) : removeOne dk sc k = sc := by
  simp [removeOne, h]

/-- When every materialized name is still desired, the removal pass is the
identity. -/
theorem removal_fold_id (dk ks : List String) (sc : SyncState × Nat)
    (h : ∀ k ∈ ks, k ∈ dk) : ks.foldl (removeOne dk) sc = sc := by
  induction ks generalizing sc with
  | nil => rfl
  | cons k t ih =>
    simp only [List.foldl_cons]
    rw [removeOne_id_of_mem dk sc k (h k (List.mem_cons_self k t))]
    exact ih _ fun x hx => h x (List.mem_cons_of_mem _ hx)

/-! Upsert pass lemmas. -/

/-- `needsCreate` is false exactly when the name is materialized with the
same fingerprint and the same hover flag. -/
theorem needsCreate_false_iff (s : SyncState) (n : String) (e : Entry) :
    needsCreate s n e = false ↔
      (objGet s.geojsonLayers n).isSome = true
      ∧ objGet s.geojsonData n = some (Json.stringify e.geojson)
      ∧ objGet s.geojsonHoverable n = some e.hoverable := by
  unfold needsCreate
  cases hg : objGet s.geojsonLayers n <;> simp [hg]

/-- `needsCreate` only looks at the three table entries of its name. -/
theorem needsCreate_congr (s₁ s₂ : SyncState) (n : String) (e : Entry)
    (h1 : objGet s₁.geojsonLayers n = objGet s₂.geojsonLayers n)
    (h2 : objGet s₁.geojsonData n = objGet s₂.geojsonData n)
    (h3 : objGet s₁.geojsonHoverable n = objGet s₂.geojsonHoverable n) :
    needsCreate s₁ n e = needsCreate s₂ n e := by
  unfold needsCreate
  rw [h1, h2, h3]

/-- An upsert step whose re-creation test fails is a complete no-op. -/
theorem upsertOne_skip (sc : SyncState × Nat) (k : String) (e : Entry)
    (h : needsCreate sc.1 k e = false) : upsertOne sc (k, e) = sc := by
  simp [upsertOne, h]

/-- An upsert step whose re-creation test holds stores a drawable with the
next fresh id, the new fingerprint and the new hover flag, and bumps the
id counter. -/
theorem upsertOne_create_values (sc : SyncState × Nat) (k : String) (e : Entry)
    (h : needsCreate sc.1 k e = true) :
    (objGet ((upsertOne sc (k, e)).1.geojsonLayers) k = some sc.1.nextLayerId)
    ∧ (objGet ((upsertOne sc (k, e)).1.geojsonData) k = some (Json.stringify e.geojson))
    ∧ (objGet ((upsertOne sc (k, e)).1.geojsonHoverable) k = some e.hoverable)
    ∧ (upsertOne sc (k, e)).1.nextLayerId = sc.1.nextLayerId + 1 := by
  have hnot : ¬needsCreate sc.1 k e = false := by
    rw [h]
    simp
  cases hg : objGet sc.1.geojsonLayers k <;>
    simp [upsertOne, hnot, hg, objGet_objSet_self]

/-- An upsert step for one name leaves every other name's entries alone. -/
theorem upsertOne_other (sc : SyncState × Nat) (k : String) (e : Entry) (n : String)
    (h : n ≠ k) :
    (objGet ((upsertOne sc (k, e)).1.geojsonLayers) n = objGet sc.1.geojsonLayers n)
    ∧ (objGet ((upsertOne sc (k, e)).1.geojsonData) n = objGet sc.1.geojsonData n)
    ∧ (objGet ((upsertOne sc (k, e)).1.geojsonHoverable) n
        = objGet sc.1.geojsonHoverable n) := by
  by_cases hnc : needsCreate sc.1 k e = false
  · simp [upsertOne, hnc]
  · cases hg : objGet sc.1.geojsonLayers k <;>
      simp [upsertOne, hnc, hg, objGet_objSet_other _ _ _ _ h]

/-- The drawable id counter never decreases across an upsert step. -/
theorem upsertOne_nextLayerId_mono (sc : SyncState × Nat) (ne : String × Entry) :
    sc.1.nextLayerId ≤ (upsertOne sc ne).1.nextLayerId := by
  obtain ⟨k, e⟩ := ne
  by_cases hnc : needsCreate sc.1 k e = false
  · simp [upsertOne, hnc]
  · cases hg : objGet sc.1.geojsonLayers k <;>
      simp [upsertOne, hnc, hg]

/-- Names not mentioned by the upsert list keep their entries across the
whole upsert pass. -/
theorem upsert_fold_other (l : List (String × Entry)) (sc : SyncState × Nat) (n : String)
    (h : n ∉ objKeys l) :
    (objGet ((l.foldl upsertOne sc).1.geojsonLayers) n = objGet sc.1.geojsonLayers n)
    ∧ (objGet ((l.foldl upsertOne sc).1.geojsonData) n = objGet sc.1.geojsonData n)
    ∧ (objGet ((l.foldl upsertOne sc).1.geojsonHoverable) n
        = objGet sc.1.geojsonHoverable n) := by
  induction l generalizing sc with
  | nil => exact ⟨rfl, rfl, rfl⟩
  | cons hd t ih =>
    obtain ⟨k, v⟩ := hd
    have hnk : n ≠ k := fun he => h (he ▸ List.mem_cons_self k (objKeys t))
    have hnt : n ∉ objKeys t := fun hm => h (List.mem_cons_of_mem _ hm)
    simp only [List.foldl_cons]
    rcases upsertOne_other sc k v n hnk with ⟨q1, q2, q3⟩
    rcases ih (upsertOne sc (k, v)) hnt with ⟨r1, r2, r3⟩
    exact ⟨r1.trans q1, r2.trans q2, r3.trans q3⟩

/-- The drawable id counter never decreases across the upsert pass. -/
theorem upsert_fold_nextLayerId_mono (l : List (String × Entry)) (sc : SyncState × Nat) :
    sc.1.nextLayerId ≤ (l.foldl upsertOne sc).1.nextLayerId := by
  induction l generalizing sc with
  | nil => exact le_refl _
  | cons hd t ih =>
    simp only [List.foldl_cons]
    exact le_trans (upsertOne_nextLayerId_mono sc hd) (ih (upsertOne sc hd))

/-- An upsert step ensures exactly its own name is added to each table's
key set (a skipped step already had the name present in all three). -/
theorem upsertOne_mem_keys (sc : SyncState × Nat) (k : String) (e : Entry) (n : String) :
    (n ∈ objKeys ((upsertOne sc (k, e)).1.geojsonLayers)
        ↔ n ∈ objKeys sc.1.geojsonLayers ∨ n = k)
    ∧ (n ∈ objKeys ((upsertOne sc (k, e)).1.geojsonData)
        ↔ n ∈ objKeys sc.1.geojsonData ∨ n = k)
    ∧ (n ∈ objKeys ((upsertOne sc (k, e)).1.geojsonHoverable)
        ↔ n ∈ objKeys sc.1.geojsonHoverable ∨ n = k) := by
  by_cases hnc : needsCreate sc.1 k e = false
  · rw [upsertOne_skip sc k e hnc]
    rcases (needsCreate_false_iff sc.1 k e).mp hnc with ⟨f1, f2, f3⟩
    have m1 : k ∈ objKeys sc.1.geojsonLayers := (mem_objKeys_iff _ k).mpr f1
    have m2 : k ∈ objKeys sc.1.geojsonData := (mem_objKeys_iff _ k).mpr (by rw [f2]; rfl)
    have m3 : k ∈ objKeys sc.1.geojsonHoverable := (mem_objKeys_iff _ k).mpr (by rw [f3]; rfl)
    refine ⟨⟨fun h => Or.inl h, ?_⟩, ⟨fun h => Or.inl h, ?_⟩, ⟨fun h => Or.inl h, ?_⟩⟩ <;>
      rintro (h | rfl) <;> first | exact h | assumption
  · cases hg : objGet sc.1.geojsonLayers k <;>
      simp [upsertOne, hnc, hg, mem_objKeys_objSet]

/-- After the upsert pass, each table's key set is the old key set plus the
upserted names. -/
theorem upsert_fold_mem_keys (l : List (String × Entry)) (sc : SyncState × Nat) (n : String) :
    (n ∈ objKeys ((l.foldl upsertOne sc).1.geojsonLayers)
        ↔ n ∈ objKeys sc.1.geojsonLayers ∨ n ∈ objKeys l)
    ∧ (n ∈ objKeys ((l.foldl upsertOne sc).1.geojsonData)
        ↔ n ∈ objKeys sc.1.geojsonData ∨ n ∈ objKeys l)
    ∧ (n ∈ objKeys ((l.foldl upsertOne sc).1.geojsonHoverable)
        ↔ n ∈ objKeys sc.1.geojsonHoverable ∨ n ∈ objKeys l) := by
  induction l generalizing sc with
  | nil => simp [objKeys]
  | cons hd t ih =>
    obtain ⟨k, v⟩ := hd
    simp only [List.foldl_cons]
    rcases ih (upsertOne sc (k, v)) with ⟨i1, i2, i3⟩
    rcases upsertOne_mem_keys sc k v n with ⟨s1, s2, s3⟩
    have hcons : n ∈ objKeys ((k, v) :: t) ↔ n = k ∨ n ∈ objKeys t := by
      simp [objKeys]
    refine ⟨?_, ?_, ?_⟩
    · rw [i1, s1, hcons]
      exact or_assoc
    · rw [i2, s2, hcons]
      exact or_assoc
    · rw [i3, s3, hcons]
      exact or_assoc

/-- When the re-creation test fails for every entry, the whole upsert pass
is the identity. -/
theorem upsert_fold_skip (l : List (String × Entry)) (sc : SyncState × Nat)
    (h : ∀ p ∈ l, needsCreate sc.1 p.1 p.2 = false) :
    l.foldl upsertOne sc = sc := by
  induction l with
  | nil => rfl
  | cons hd t ih =>
    obtain ⟨k, v⟩ := hd
    simp only [List.foldl_cons]
    rw [upsertOne_skip sc k v (h (k, v) (List.mem_cons_self _ _))]
    exact ih fun p hp => h p (List.mem_cons_of_mem _ hp)

/-- The heart of the upsert pass, for a desired `(name, entry)` with
duplicate-free upsert names: the stored fingerprint and hover flag match
the entry afterwards, and the stored drawable is untouched when the
re-creation test fails, or a freshly allocated id when it holds. -/
theorem upsert_fold_values (l : List (String × Entry)) (sc : SyncState × Nat) (n : String)
    (e : Entry) (hnd : (objKeys l).Nodup) (hmem : (n, e) ∈ l) :
    (objGet ((l.foldl upsertOne sc).1.geojsonData) n = some (Json.stringify e.geojson))
    ∧ (objGet ((l.foldl upsertOne sc).1.geojsonHoverable) n = some e.hoverable)
    ∧ (needsCreate sc.1 n e = false →
        objGet ((l.foldl upsertOne sc).1.geojsonLayers) n = objGet sc.1.geojsonLayers n)
    ∧ (needsCreate sc.1 n e = true →
        ∃ id, objGet ((l.foldl upsertOne sc).1.geojsonLayers) n = some id
          ∧ sc.1.nextLayerId ≤ id) := by
  induction l generalizing sc with
  | nil => simp at hmem
  | cons hd t ih =>
    obtain ⟨k, v⟩ := hd
    simp only [objKeys, List.map_cons, List.nodup_cons] at hnd
    simp only [List.foldl_cons]
    rcases List.mem_cons.mp hmem with h₁ | h₂
    · cases h₁
      by_cases hnc : needsCreate sc.1 n e = false
      · rw [upsertOne_skip sc n e hnc]
        rcases upsert_fold_other t sc n hnd.1 with ⟨p1, p2, p3⟩
        rcases (needsCreate_false_iff sc.1 n e).mp hnc with ⟨_, f2, f3⟩
        refine ⟨p2.trans f2, p3.trans f3, fun _ => p1, fun hT => ?_⟩
        rw [hnc] at hT
        exact absurd hT (by simp)
      · have hT : needsCreate sc.1 n e = true := by
          cases hb : needsCreate sc.1 n e
          · exact absurd hb hnc
          · rfl
        rcases upsert_fold_other t (upsertOne sc (n, e)) n hnd.1 with ⟨p1, p2, p3⟩
        rcases upsertOne_create_values sc n e hT with ⟨c1, c2, c3, _⟩
        refine ⟨p2.trans c2, p3.trans c3, fun hF => ?_, fun _ =>
          ⟨sc.1.nextLayerId, p1.trans c1, le_refl _⟩⟩
        rw [hF] at hT
        exact absurd hT (by simp)
    · have hnk : n ≠ k := by
        intro he
        exact hnd.1 (he ▸ key_mem_of_mem t n e h₂)
      rcases upsertOne_other sc k v n hnk with ⟨q1, q2, q3⟩
      have hcong : needsCreate (upsertOne sc (k, v)).1 n e = needsCreate sc.1 n e :=
        needsCreate_congr _ _ n e q1 q2 q3
      rcases ih (upsertOne sc (k, v)) hnd.2 h₂ with ⟨i1, i2, i3, i4⟩
      refine ⟨i1, i2, fun hF => ?_, fun hT => ?_⟩
      · rw [i3 (by rw [hcong]; exact hF)]
        exact q1
      · obtain ⟨id, hid, hle⟩ := i4 (by rw [hcong]; exact hT)
        exact ⟨id, hid, le_trans (upsertOne_nextLayerId_mono sc (k, v)) hle⟩

/-! Whole-pass lemmas for `syncGeojson`. -/

/-- Unfolding of the reconciliation pass into its two folds. -/
theorem syncGeojson_eq (sd hd : List (String × Json)) (s : SyncState) :
    syncGeojson sd hd s
      = { state := ((mergeDicts sd hd).foldl upsertOne
            ((((objKeys s.geojsonLayers).foldl (removeOne (objKeys (mergeDicts sd hd)))
              (s, 0))).1, 0)).1,
          removals := ((objKeys s.geojsonLayers).foldl (removeOne (objKeys (mergeDicts sd hd)))
            (s, 0)).2,
          creates := ((mergeDicts sd hd).foldl upsertOne
            ((((objKeys s.geojsonLayers).foldl (removeOne (objKeys (mergeDicts sd hd)))
              (s, 0))).1, 0)).2,
          rebuilds := 1 } := rfl

/-- After a pass, a desired name carries the fingerprint and hover flag of
its desired entry, and its stored drawable is the untouched old one when
the re-creation test (against the pre-pass state) fails, or a freshly
allocated one when it holds. -/
theorem sync_objGet_values (sd hd : List (String × Json)) (s : SyncState) (n : String)
    (e : Entry) (hme : objGet (mergeDicts sd hd) n = some e) :
    (objGet (syncGeojson sd hd s).state.geojsonData n = some (Json.stringify e.geojson))
    ∧ (objGet (syncGeojson sd hd s).state.geojsonHoverable n = some e.hoverable)
    ∧ (needsCreate s n e = false →
        objGet (syncGeojson sd hd s).state.geojsonLayers n = objGet s.geojsonLayers n)
    ∧ (needsCreate s n e = true →
        ∃ id, objGet (syncGeojson sd hd s).state.geojsonLayers n = some id
          ∧ s.nextLayerId ≤ id) := by
  have hmem : (n, e) ∈ mergeDicts sd hd := objGet_mem _ _ _ hme
  have hdk : n ∈ objKeys (mergeDicts sd hd) := key_mem_of_mem _ _ _ hmem
  rw [syncGeojson_eq]
  rcases removal_fold_preserves (objKeys (mergeDicts sd hd)) (objKeys s.geojsonLayers)
    (s, 0) n (Or.inl hdk) with ⟨p1, p2, p3, p4⟩
  have hcong :
      needsCreate ((((objKeys s.geojsonLayers).foldl
          (removeOne (objKeys (mergeDicts sd hd))) (s, 0))).1, 0).1 n e
        = needsCreate s n e :=
    needsCreate_congr _ _ n e p1 p2 p3
  rcases upsert_fold_values (mergeDicts sd hd)
    ((((objKeys s.geojsonLayers).foldl (removeOne (objKeys (mergeDicts sd hd))) (s, 0))).1, 0)
    n e (mergeDicts_nodup sd hd) hmem with ⟨u1, u2, u3, u4⟩
  refine ⟨u1, u2, fun hF => ?_, fun hT => ?_⟩
  · rw [u3 (by rw [hcong]; exact hF)]
    exact p1
  · obtain ⟨id, hid, hle⟩ := u4 (by rw [hcong]; exact hT)
    refine ⟨id, hid, ?_⟩
    calc s.nextLayerId = _ := p4.symm
    _ ≤ id := hle

/-- After a pass, the key set of each of the three tables is exactly the
desired name set (the data and hover tables need the pre-pass invariant
that they have no names outside the layer table). -/
theorem sync_mem_keys (sd hd : List (String × Json)) (s : SyncState) (n : String)
    (hdata : ∀ m ∈ objKeys s.geojsonData, m ∈ objKeys s.geojsonLayers)
    (hhov : ∀ m ∈ objKeys s.geojsonHoverable, m ∈ objKeys s.geojsonLayers) :
    (n ∈ objKeys (syncGeojson sd hd s).state.geojsonLayers
        ↔ n ∈ objKeys (mergeDicts sd hd))
    ∧ (n ∈ objKeys (syncGeojson sd hd s).state.geojsonData
        ↔ n ∈ objKeys (mergeDicts sd hd))
    ∧ (n ∈ objKeys (syncGeojson sd hd s).state.geojsonHoverable
        ↔ n ∈ objKeys (mergeDicts sd hd)) := by
  rw [syncGeojson_eq]
  rcases upsert_fold_mem_keys (mergeDicts sd hd)
    ((((objKeys s.geojsonLayers).foldl (removeOne (objKeys (mergeDicts sd hd))) (s, 0))).1, 0)
    n with ⟨m1, m2, m3⟩
  have hscL : n ∈ objKeys ((((objKeys s.geojsonLayers).foldl
      (removeOne (objKeys (mergeDicts sd hd))) (s, 0))).1, 0).1.geojsonLayers
      → n ∈ objKeys (mergeDicts sd hd) := by
    intro hm
    by_cases hdk : n ∈ objKeys (mergeDicts sd hd)
    · exact hdk
    · exfalso
      by_cases hks : n ∈ objKeys s.geojsonLayers
      · rcases removal_fold_removes (objKeys (mergeDicts sd hd)) (objKeys s.geojsonLayers)
          (s, 0) n hdk hks with ⟨r1, _, _⟩
        have := (mem_objKeys_iff _ n).mp hm
        rw [r1] at this
        simp at this
      · rcases removal_fold_preserves (objKeys (mergeDicts sd hd)) (objKeys s.geojsonLayers)
          (s, 0) n (Or.inr hks) with ⟨p1, _, _, _⟩
        have := (mem_objKeys_iff _ n).mp hm
        rw [p1] at this
        exact hks ((mem_objKeys_iff _ n).mpr this)
  have hscD : n ∈ objKeys ((((objKeys s.geojsonLayers).foldl
      (removeOne (objKeys (mergeDicts sd hd))) (s, 0))).1, 0).1.geojsonData
      → n ∈ objKeys (mergeDicts sd hd) := by
    intro hm
    by_cases hdk : n ∈ objKeys (mergeDicts sd hd)
    · exact hdk
    · exfalso
      by_cases hks : n ∈ objKeys s.geojsonLayers
      · rcases removal_fold_removes (objKeys (mergeDicts sd hd)) (objKeys s.geojsonLayers)
          (s, 0) n hdk hks with ⟨_, r2, _⟩
        have := (mem_objKeys_iff _ n).mp hm
        rw [r2] at this
        simp at this
      · rcases removal_fold_preserves (objKeys (mergeDicts sd hd)) (objKeys s.geojsonLayers)
          (s, 0) n (Or.inr hks) with ⟨_, p2, _, _⟩
        have := (mem_objKeys_iff _ n).mp hm
        rw [p2] at this
        exact hks (hdata n ((mem_objKeys_iff _ n).mpr this))
  have hscH : n ∈ objKeys ((((objKeys s.geojsonLayers).foldl
      (removeOne (objKeys (mergeDicts sd hd))) (s, 0))).1, 0).1.geojsonHoverable
      → n ∈ objKeys (mergeDicts sd hd) := by
    intro hm
    by_cases hdk : n ∈ objKeys (mergeDicts sd hd)
    · exact hdk
    · exfalso
      by_cases hks : n ∈ objKeys s.geojsonLayers
      · rcases removal_fold_removes (objKeys (mergeDicts sd hd)) (objKeys s.geojsonLayers)
          (s, 0) n hdk hks with ⟨_, _, r3⟩
        have := (mem_objKeys_iff _ n).mp hm
        rw [r3] at this
        simp at this
      · rcases removal_fold_preserves (objKeys (mergeDicts sd hd)) (objKeys s.geojsonLayers)
          (s, 0) n (Or.inr hks) with ⟨_, _, p3, _⟩
        have := (mem_objKeys_iff _ n).mp hm
        rw [p3] at this
        exact hks (hhov n ((mem_objKeys_iff _ n).mpr this))
  refine ⟨?_, ?_, ?_⟩
  · rw [m1]
    exact ⟨fun h => h.elim hscL id, fun h => Or.inr h⟩
  · rw [m2]
    exact ⟨fun h => h.elim hscD id, fun h => Or.inr h⟩
  · rw [m3]
    exact ⟨fun h => h.elim hscH id, fun h => Or.inr h⟩

/-- Every name materialized after a pass is a desired name. -/
theorem sync_layers_keys_subset (sd hd : List (String × Json)) (s : SyncState) :
    ∀ n ∈ objKeys (syncGeojson sd hd s).state.geojsonLayers,
      n ∈ objKeys (mergeDicts sd hd) := by
  intro n hn
  rw [syncGeojson_eq] at hn
  rcases upsert_fold_mem_keys (mergeDicts sd hd)
    ((((objKeys s.geojsonLayers).foldl (removeOne (objKeys (mergeDicts sd hd))) (s, 0))).1, 0)
    n with ⟨m1, _, _⟩
  rcases m1.mp hn with hm | hm
  · by_cases hdk : n ∈ objKeys (mergeDicts sd hd)
    · exact hdk
    · exfalso
      by_cases hks : n ∈ objKeys s.geojsonLayers
      · rcases removal_fold_removes (objKeys (mergeDicts sd hd)) (objKeys s.geojsonLayers)
          (s, 0) n hdk hks with ⟨r1, _, _⟩
        have := (mem_objKeys_iff _ n).mp hm
        rw [r1] at this
        simp at this
      · rcases removal_fold_preserves (objKeys (mergeDicts sd hd)) (objKeys s.geojsonLayers)
          (s, 0) n (Or.inr hks) with ⟨p1, _, _, _⟩
        have := (mem_objKeys_iff _ n).mp hm
        rw [p1] at this
        exact hks ((mem_objKeys_iff _ n).mpr this)
  · exact hm

/-- Submitting the same snapshot right after a pass removes nothing,
creates nothing, and returns the state unchanged (still rebuilding once). -/
theorem sync_idempotent (sd hd : List (String × Json)) (s : SyncState) :
    syncGeojson sd hd (syncGeojson sd hd s).state
      = { state := (syncGeojson sd hd s).state, removals := 0, creates := 0,
          rebuilds := 1 } := by
  have hrem := removal_fold_id (objKeys (mergeDicts sd hd))
    (objKeys (syncGeojson sd hd s).state.geojsonLayers) ((syncGeojson sd hd s).state, 0)
    (sync_layers_keys_subset sd hd s)
  have hskip : ∀ p ∈ mergeDicts sd hd,
      needsCreate (syncGeojson sd hd s).state p.1 p.2 = false := by
    intro p hp
    have hget : objGet (mergeDicts sd hd) p.1 = some p.2 :=
      mem_objGet_of_nodup _ _ _ (mergeDicts_nodup sd hd) hp
    rcases sync_objGet_values sd hd s p.1 p.2 hget with ⟨v1, v2, v3, v4⟩
    refine (needsCreate_false_iff _ _ _).mpr ⟨?_, v1, v2⟩
    by_cases hnc : needsCreate s p.1 p.2 = false
    · rw [v3 hnc]
      rcases (needsCreate_false_iff s p.1 p.2).mp hnc with ⟨f1, _, _⟩
      exact f1
    · have hT : needsCreate s p.1 p.2 = true := by
        cases hb : needsCreate s p.1 p.2
        · exact absurd hb hnc
        · rfl
      obtain ⟨id, hid, _⟩ := v4 hT
      rw [hid]
      rfl
  have hups := upsert_fold_skip (mergeDicts sd hd) ((syncGeojson sd hd s).state, 0) hskip
  rw [syncGeojson_eq sd hd (syncGeojson sd hd s).state, hrem]
  simp only [hups]

/-! Geometry of the grid: a candidate within the threshold lies in the 3x3
neighborhood of the query cell. -/

/-- A squared-distance bound caps each coordinate difference. -/
theorem abs_coords_le_of_distSq_le (p : ℚ × ℚ) (c : Candidate) (t : ℚ) (ht : 0 ≤ t)
    (h : distSq p c ≤ t ^ 2) : |p.1 - c.x| ≤ t ∧ |p.2 - c.y| ≤ t := by
  unfold distSq at h
  constructor
  · exact abs_le_of_sq_le_sq (by nlinarith [sq_nonneg (p.2 - c.y)]) ht
  · exact abs_le_of_sq_le_sq (by nlinarith [sq_nonneg (p.1 - c.x)]) ht

/-- Two reals within one cell size of each other land in adjacent or equal
grid rows/columns. -/
theorem floor_div_near (a b t : ℚ) (ht : 0 < t) (h : |a - b| ≤ t) :
    ⌊b / t⌋ - 1 ≤ ⌊a / t⌋ ∧ ⌊a / t⌋ ≤ ⌊b / t⌋ + 1 := by
  rcases abs_le.mp h with ⟨h1, h2⟩
  constructor
  · have hdiv : (b - t) / t ≤ a / t := (div_le_div_iff_of_pos_right ht).mpr (by linarith)
    have heq : (b - t) / t = b / t - 1 := by
      field_simp
    rw [heq] at hdiv
    have hfl : ⌊b / t - 1⌋ = ⌊b / t⌋ - 1 := by
      simp
    calc ⌊b / t⌋ - 1 = ⌊b / t - 1⌋ := hfl.symm
    _ ≤ ⌊a / t⌋ := Int.floor_mono hdiv
  · have hdiv : a / t ≤ (b + t) / t := (div_le_div_iff_of_pos_right ht).mpr (by linarith)
    have heq : (b + t) / t = b / t + 1 := by
      field_simp
    rw [heq] at hdiv
    have hfl : ⌊b / t + 1⌋ = ⌊b / t⌋ + 1 := by
      simp
    calc ⌊a / t⌋ ≤ ⌊b / t + 1⌋ := Int.floor_mono hdiv
    _ = ⌊b / t⌋ + 1 := hfl

/-- Any candidate within pixel distance `t` of the query point (cell size
`t`) falls in one of the nine cells of the 3x3 neighborhood of the query
cell. -/
theorem cell_in_neighborhood (t : ℚ) (ht : 0 < t) (p : ℚ × ℚ) (c : Candidate)
    (h : distSq p c ≤ t ^ 2) :
    cellKeyFromPoint t (c.x, c.y) ∈ neighborhoodCells (cellKeyFromPoint t p) := by
  obtain ⟨hx, hy⟩ := abs_coords_le_of_distSq_le p c t ht.le h
  rw [abs_sub_comm] at hx hy
  obtain ⟨hx1, hx2⟩ := floor_div_near c.x p.1 t ht hx
  obtain ⟨hy1, hy2⟩ := floor_div_near c.y p.2 t ht hy
  have hcx : ⌊c.x / t⌋ = ⌊p.1 / t⌋ - 1 ∨ ⌊c.x / t⌋ = ⌊p.1 / t⌋ ∨ ⌊c.x / t⌋ = ⌊p.1 / t⌋ + 1 := by
    omega
  have hcy : ⌊c.y / t⌋ = ⌊p.2 / t⌋ - 1 ∨ ⌊c.y / t⌋ = ⌊p.2 / t⌋ ∨ ⌊c.y / t⌋ = ⌊p.2 / t⌋ + 1 := by
    omega
  unfold cellKeyFromPoint neighborhoodCells
  rcases hcx with h1 | h1 | h1 <;> rcases hcy with h2 | h2 | h2 <;>
    simp [h1, h2, Prod.ext_iff]

/-! Scan invariant lemmas for the pointer-move query. -/

/-- One scan step preserves the running-minimum invariant. -/
theorem scanStep_inv (p : ℚ × ℚ) (acc : Option (Candidate × ℚ)) (seen : List Candidate)
    (c : Candidate) (h : scanInv p acc seen) :
    scanInv p (scanStep p acc c) (seen ++ [c]) := by
  cases acc with
  | none =>
    have hseen : seen = [] := h
    subst hseen
    refine ⟨rfl, List.mem_singleton_self c, ?_⟩
    intro c' hc'
    rcases List.mem_singleton.mp hc' with rfl
    exact le_refl _
  | some bd =>
    obtain ⟨b, d⟩ := bd
    obtain ⟨h1, h2, h3⟩ := h
    by_cases hlt : distSq p c < d
    · have hred : scanStep p (some (b, d)) c = some (c, distSq p c) := by
        simp [scanStep, hlt]
      rw [hred]
      refine ⟨rfl, List.mem_append_right seen (List.mem_singleton_self c), ?_⟩
      intro c' hc'
      rcases List.mem_append.mp hc' with hs | hs
      · exact le_trans (le_of_lt hlt) (h3 c' hs)
      · rcases List.mem_singleton.mp hs with rfl
        exact le_refl _
    · have hred : scanStep p (some (b, d)) c = some (b, d) := by
        simp [scanStep, hlt]
      rw [hred]
      refine ⟨h1, List.mem_append_left _ h2, ?_⟩
      intro c' hc'
      rcases List.mem_append.mp hc' with hs | hs
      · exact h3 c' hs
      · rcases List.mem_singleton.mp hs with rfl
        exact le_of_not_lt hlt
  
/-- Scanning a whole bucket preserves the invariant. -/
theorem scanCell_inv (p : ℚ × ℚ) (cs : List Candidate) (acc : Option (Candidate × ℚ))
    (seen : List Candidate) (h : scanInv p acc seen) :
    scanInv p (scanCell p acc cs) (seen ++ cs) := by
  induction cs generalizing acc seen with
  | nil => simpa using h
  | cons c t ih =>
    have hstep := scanStep_inv p acc seen c h
    have hrest := ih (scanStep p acc c) (seen ++ [c]) hstep
    have hfold : scanCell p acc (c :: t) = scanCell p (scanStep p acc c) t := by
      simp [scanCell]
    rw [hfold]
    have hplist : (seen ++ [c]) ++ t = seen ++ c :: t := by
      simp
    rw [hplist] at hrest
    exact hrest

/-- Scanning the whole cell list preserves the invariant. -/
theorem scanFold_inv (p : ℚ × ℚ) (idx : HoverIndex) (cells : List (Int × Int))
    (acc : Option (Candidate × ℚ)) (seen : List Candidate) (h : scanInv p acc seen) :
    scanInv p (cells.foldl (fun a k => scanCell p a (cellCandidates idx k)) acc)
      (seen ++ (cells.map (cellCandidates idx)).flatten) := by
  induction cells generalizing acc seen with
  | nil => simpa using h
  | cons k t ih =>
    have h1 := scanCell_inv p (cellCandidates idx k) acc seen h
    have hrest := ih _ _ h1
    simp only [List.map_cons, List.flatten_cons, List.foldl_cons]
    rw [← List.append_assoc]
    exact hrest

/-- Every bucketed candidate is an indexed candidate. -/
theorem cellCandidates_subset (idx : HoverIndex) (k : Int × Int) (c : Candidate)
    (h : c ∈ cellCandidates idx k) : c ∈ allCandidates idx := by
  unfold cellCandidates at h
  cases hg : objGet idx k with
  | none =>
    rw [hg] at h
    simp at h
  | some lst =>
    rw [hg] at h
    simp only [Option.getD_some] at h
    have hmem := objGet_mem idx k lst hg
    unfold allCandidates
    rw [List.mem_flatten]
    exact ⟨lst, List.mem_map_of_mem Prod.snd hmem, h⟩

/-- Everything scanned by the neighborhood search is an indexed candidate. -/
theorem seen_subset_all (idx : HoverIndex) (cells : List (Int × Int)) :
    ∀ c ∈ (cells.map (cellCandidates idx)).flatten, c ∈ allCandidates idx := by
  intro c hc
  rw [List.mem_flatten] at hc
  obtain ⟨l₀, hl₀, hcl⟩ := hc
  obtain ⟨k, _, rfl⟩ := List.mem_map.mp hl₀
  exact cellCandidates_subset idx k c hcl

/-- In a well-formed, duplicate-free index, every indexed candidate within
the threshold of the query point is scanned by the 3x3 neighborhood
search. -/
theorem within_mem_neighborhood_seen (idx : HoverIndex) (p : ℚ × ℚ) (c : Candidate)
    (hwf : wellFormedIndex idx) (hnd : (objKeys idx).Nodup)
    (hmem : c ∈ allCandidates idx) (hd : distSq p c ≤ hoverThresholdPx ^ 2) :
    c ∈ ((neighborhoodCells (cellKeyFromPoint gridCell p)).map (cellCandidates idx)).flatten := by
  unfold allCandidates at hmem
  rw [List.mem_flatten] at hmem
  obtain ⟨l₀, hl₀, hcl⟩ := hmem
  obtain ⟨kc, hkc, rfl⟩ := List.mem_map.mp hl₀
  have hkey : cellKeyFromPoint gridCell (c.x, c.y) = kc.1 := hwf kc hkc c hcl
  have hget : objGet idx kc.1 = some kc.2 := mem_objGet_of_nodup idx kc.1 kc.2 hnd hkc
  have hcellmem : c ∈ cellCandidates idx kc.1 := by
    unfold cellCandidates
    rw [hget]
    exact hcl
  have htpos : (0 : ℚ) < gridCell := by norm_num [gridCell, hoverThresholdPx]
  have hnbr : kc.1 ∈ neighborhoodCells (cellKeyFromPoint gridCell p) := by
    rw [← hkey]
    exact cell_in_neighborhood gridCell htpos p c hd
  rw [List.mem_flatten]
  exact ⟨cellCandidates idx kc.1, List.mem_map_of_mem _ hnbr, hcellmem⟩

/-! Index rebuild membership lemmas. -/

/-- Inserting into a bucket adds exactly that candidate to the index
contents. -/
theorem mem_allCandidates_indexInsert (idx : HoverIndex) (k : Int × Int) (c c' : Candidate) :
    c' ∈ allCandidates (indexInsert idx k c) ↔ c' ∈ allCandidates idx ∨ c' = c := by
  induction idx with
  | nil =>
    simp [indexInsert, objGet, objSet, allCandidates]
  | cons kc t ih =>
    obtain ⟨k₀, lst⟩ := kc
    by_cases hk : k₀ = k
    · have hstep : indexInsert ((k₀, lst) :: t) k c = (k, lst ++ [c]) :: t := by
        simp [indexInsert, objGet, objSet, hk]
      rw [hstep]
      simp only [allCandidates, List.map_cons, List.flatten_cons, List.mem_append,
        List.mem_singleton]
      tauto
    · have hstep : indexInsert ((k₀, lst) :: t) k c = (k₀, lst) :: indexInsert t k c := by
        simp [indexInsert, objGet, objSet, hk]
      rw [hstep]
      simp only [allCandidates, List.map_cons, List.flatten_cons, List.mem_append]
      rw [show (c' ∈ (List.map Prod.snd (indexInsert t k c)).flatten)
          = (c' ∈ allCandidates (indexInsert t k c)) from rfl]
      rw [ih]
      tauto

/-- Contents of the index after walking one layer's sublayers: the previous
contents plus everything the sublayers emit. -/
theorem addSub_fold_mem (proj : ℚ × ℚ → JsNum × JsNum) (subs : List SubLayer)
    (idx : HoverIndex) (c : Candidate) :
    c ∈ allCandidates (subs.foldl (addSub proj) idx)
      ↔ c ∈ allCandidates idx ∨ ∃ sub ∈ subs, subEmits proj sub c := by
  induction subs generalizing idx with
  | nil => simp
  | cons sub t ih =>
    simp only [List.foldl_cons]
    rw [ih]
    have hstep : c ∈ allCandidates (addSub proj idx sub)
        ↔ c ∈ allCandidates idx ∨ subEmits proj sub c := by
      cases hll : sub.latlng? with
      | none =>
        simp only [addSub, hll]
        unfold subEmits
        simp [hll]
      | some ll =>
        cases hproj : proj ll with
        | mk jx jy =>
          cases jx with
          | fin x =>
            cases jy with
            | fin y =>
              simp only [addSub, hll, hproj]
              rw [mem_allCandidates_indexInsert]
              unfold subEmits
              simp only [hll, Option.some.injEq]
              constructor
              · rintro (h | h)
                · exact Or.inl h
                · exact Or.inr ⟨ll, x, y, rfl, hproj, h⟩
              · rintro (h | ⟨ll', x', y', hll', hproj', hc⟩)
                · exact Or.inl h
                · cases hll'
                  rw [hproj] at hproj'
                  injection hproj' with hx hy
                  injection hx with hx
                  injection hy with hy
                  subst hx
                  subst hy
                  exact Or.inr hc
            | nonfinite =>
              simp only [addSub, hll, hproj]
              unfold subEmits
              simp only [hll, Option.some.injEq]
              constructor
              · exact fun h => Or.inl h
              · rintro (h | ⟨ll', x', y', hll', hproj', hc⟩)
                · exact h
                · cases hll'
                  rw [hproj] at hproj'
                  injection hproj' with hx hy
                  exact absurd hy (by simp)
          | nonfinite =>
            simp only [addSub, hll, hproj]
            unfold subEmits
            simp only [hll, Option.some.injEq]
            constructor
            · exact fun h => Or.inl h
            · rintro (h | ⟨ll', x', y', hll', hproj', hc⟩)
              · exact h
              · cases hll'
                rw [hproj] at hproj'
                injection hproj' with hx hy
                exact absurd hx (by simp)
    rw [hstep]
    rw [List.exists_mem_cons_iff]
    tauto

/-- Contents of the index after processing a list of overlays: previous
contents plus everything emitted by hover-eligible, attached overlays. -/
theorem addLayer_fold_mem (proj : ℚ × ℚ → JsNum × JsNum) (layers : List (String × Layer))
    (hoverTable : List (String × Bool)) (attached : List Nat) (idx : HoverIndex)
    (c : Candidate) :
    c ∈ allCandidates (layers.foldl (addLayer proj hoverTable attached) idx)
      ↔ c ∈ allCandidates idx
        ∨ ∃ nl ∈ layers, (objGet hoverTable nl.1).getD false = true
            ∧ nl.2.id ∈ attached ∧ ∃ sub ∈ nl.2.subs, subEmits proj sub c := by
  induction layers generalizing idx with
  | nil => simp
  | cons nl t ih =>
    simp only [List.foldl_cons]
    rw [ih]
    have hstep : c ∈ allCandidates (addLayer proj hoverTable attached idx nl)
        ↔ c ∈ allCandidates idx
          ∨ ((objGet hoverTable nl.1).getD false = true ∧ nl.2.id ∈ attached
              ∧ ∃ sub ∈ nl.2.subs, subEmits proj sub c) := by
      by_cases hhov : (objGet hoverTable nl.1).getD false = false
      · simp only [addLayer, if_pos hhov]
        rw [hhov]
        simp
      · have hhovT : (objGet hoverTable nl.1).getD false = true := by
          cases hb : (objGet hoverTable nl.1).getD false
          · exact absurd hb hhov
          · rfl
        simp only [addLayer, if_neg hhov]
        by_cases hatt : nl.2.id ∈ attached
        · rw [if_pos hatt, addSub_fold_mem]
          simp [hhovT, hatt]
        · rw [if_neg hatt]
          simp [hatt]
    rw [hstep, List.exists_mem_cons_iff]
    exact or_assoc

/-- Membership characterization of a full rebuild. -/
theorem rebuild_mem (proj : ℚ × ℚ → JsNum × JsNum) (layers : List (String × Layer))
    (hoverTable : List (String × Bool)) (attached : List Nat) (c : Candidate) :
    c ∈ allCandidates (rebuildHoverIndex proj layers hoverTable attached)
      ↔ ∃ nl ∈ layers, (objGet hoverTable nl.1).getD false = true
          ∧ nl.2.id ∈ attached ∧ ∃ sub ∈ nl.2.subs, subEmits proj sub c := by
  unfold rebuildHoverIndex
  rw [addLayer_fold_mem]
  simp [allCandidates]

/-- Inserting a candidate at its own cell key keeps the index well formed. -/
theorem indexInsert_wf (idx : HoverIndex) (k : Int × Int) (c : Candidate)
    (hwf : wellFormedIndex idx) (hk : cellKeyFromPoint gridCell (c.x, c.y) = k) :
    wellFormedIndex (indexInsert idx k c) := by
  induction idx with
  | nil =>
    intro kc hkc c' hc'
    simp only [indexInsert, objGet, objSet] at hkc
    rcases List.mem_singleton.mp hkc with rfl
    simp only at hc'
    rcases List.mem_singleton.mp hc' with rfl
    exact hk
  | cons kc₀ t ih =>
    obtain ⟨k₀, lst⟩ := kc₀
    by_cases hko : k₀ = k
    · have hstep : indexInsert ((k₀, lst) :: t) k c = (k, lst ++ [c]) :: t := by
        simp [indexInsert, objGet, objSet, hko]
      rw [hstep]
      intro kc hkc c' hc'
      rcases List.mem_cons.mp hkc with rfl | hmem
      · simp only at hc'
        rcases List.mem_append.mp hc' with hl | hr
        · have := hwf (k₀, lst) (List.mem_cons_self _ _) c' hl
          rw [hko] at this
          exact this
        · rcases List.mem_singleton.mp hr with rfl
          exact hk
      · exact hwf kc (List.mem_cons_of_mem _ hmem) c' hc'
    · have hstep : indexInsert ((k₀, lst) :: t) k c = (k₀, lst) :: indexInsert t k c := by
        simp [indexInsert, objGet, objSet, hko]
      rw [hstep]
      intro kc hkc c' hc'
      rcases List.mem_cons.mp hkc with rfl | hmem
      · exact hwf (k₀, lst) (List.mem_cons_self _ _) c' hc'
      · exact ih (fun kc₁ h₁ => hwf kc₁ (List.mem_cons_of_mem _ h₁)) kc hmem c' hc'

/-- Inserting preserves duplicate-free cell keys. -/
theorem indexInsert_nodup (idx : HoverIndex) (k : Int × Int) (c : Candidate)
    (h : (objKeys idx).Nodup) : (objKeys (indexInsert idx k c)).Nodup :=
  objSet_nodup idx k _ h

/-- Walking sublayers preserves a well-formed, duplicate-free index. -/
theorem addSub_fold_wf (proj : ℚ × ℚ → JsNum × JsNum) (subs : List SubLayer)
    (idx : HoverIndex) (hwf : wellFormedIndex idx) (hnd : (objKeys idx).Nodup) :
    wellFormedIndex (subs.foldl (addSub proj) idx)
    ∧ (objKeys (subs.foldl (addSub proj) idx)).Nodup := by
  induction subs generalizing idx with
  | nil => exact ⟨hwf, hnd⟩
  | cons sub t ih =>
    simp only [List.foldl_cons]
    have hstep : wellFormedIndex (addSub proj idx sub)
        ∧ (objKeys (addSub proj idx sub)).Nodup := by
      cases hll : sub.latlng? with
      | none =>
        simp only [addSub, hll]
        exact ⟨hwf, hnd⟩
      | some ll =>
        cases hproj : proj ll with
        | mk jx jy =>
          cases jx with
          | fin x =>
            cases jy with
            | fin y =>
              simp only [addSub, hll, hproj]
              exact ⟨indexInsert_wf idx _ _ hwf rfl, indexInsert_nodup idx _ _ hnd⟩
            | nonfinite =>
              simp only [addSub, hll, hproj]
              exact ⟨hwf, hnd⟩
          | nonfinite =>
            simp only [addSub, hll, hproj]
            exact ⟨hwf, hnd⟩
    exact ih _ hstep.1 hstep.2

/-- A full rebuild yields a well-formed index with duplicate-free cell
keys: exactly the hypotheses of the query correctness theorem. -/
theorem rebuild_wf (proj : ℚ × ℚ → JsNum × JsNum) (layers : List (String × Layer))
    (hoverTable : List (String × Bool)) (attached : List Nat) :
    wellFormedIndex (rebuildHoverIndex proj layers hoverTable attached)
    ∧ (objKeys (rebuildHoverIndex proj layers hoverTable attached)).Nodup := by
  unfold rebuildHoverIndex
  have hgen : ∀ (idx : HoverIndex), wellFormedIndex idx → (objKeys idx).Nodup →
      wellFormedIndex (layers.foldl (addLayer proj hoverTable attached) idx)
      ∧ (objKeys (layers.foldl (addLayer proj hoverTable attached) idx)).Nodup := by
    induction layers with
    | nil => exact fun idx hwf hnd => ⟨hwf, hnd⟩
    | cons nl t ih =>
      intro idx hwf hnd
      simp only [List.foldl_cons]
      have hstep : wellFormedIndex (addLayer proj hoverTable attached idx nl)
          ∧ (objKeys (addLayer proj hoverTable attached idx nl)).Nodup := by
        unfold addLayer
        by_cases hhov : (objGet hoverTable nl.1).getD false = false
        · rw [if_pos hhov]
          exact ⟨hwf, hnd⟩
        · rw [if_neg hhov]
          by_cases hatt : nl.2.id ∈ attached
          · rw [if_pos hatt]
            exact addSub_fold_wf proj nl.2.subs idx hwf hnd
          · rw [if_neg hatt]
            exact ⟨hwf, hnd⟩
      exact ih _ hstep.1 hstep.2
  exact hgen [] (fun kc hkc => absurd hkc (List.not_mem_nil kc)) (by simp [objKeys])

/-! Claim theorems. -/

/-- Claim C1, counterexample: a reconciliation pass that changes nothing (empty
tables, empty snapshot: zero upserts and zero removals) still issues a hover
index rebuild signal, because the source calls `state._rebuildHoverIndex()`
unconditionally at the end of `syncGeojson`; the claim says such a pass
produces zero rebuilds. -/
theorem noop_pass_still_rebuilds :
    (syncGeojson [] [] initState).removals = 0
    ∧ (syncGeojson [] [] initState).creates = 0
    ∧ (syncGeojson [] [] initState).rebuilds ≠ 0 := by
  refine ⟨rfl, rfl, ?_⟩
  decide

/-- Claim C1, amended: overlay reconciliation signals exactly one Hover
Spatial Index rebuild on every pass, whether or not any upsert or removal
occurred (the `changedVisiblePoints` flag is computed but never consulted;
the rebuild call is unconditional). -/
theorem sync_always_rebuilds_once (sd hd : List (String × Json)) (s : SyncState) :
    (syncGeojson sd hd s).rebuilds = 1 := rfl

/-- Unfolding of the pointer-move query into its neighborhood scan. -/
theorem queryNearest_eq (idx : HoverIndex) (p : ℚ × ℚ) :
    queryNearest idx p
      = match (neighborhoodCells (cellKeyFromPoint gridCell p)).foldl
          (fun acc k => scanCell p acc (cellCandidates idx k)) none with
        | some (c, d) => if d ≤ hoverThresholdPx ^ 2 then some c else none
        | none => none := rfl

/-- Claim C2: on a well-formed index with duplicate-free cell keys (which
every rebuild produces, see `rebuild_wf`), `queryNearest` returns a true
minimum-distance candidate among all indexed candidates within the hover
threshold, returns none when no indexed candidate is within the threshold,
and returns none on an empty index. Distances are compared in squared form,
which is equivalent to the source's `Math.sqrt` comparisons because the
square root is strictly monotone on nonnegative numbers. -/
theorem queryNearest_correct (idx : HoverIndex) (p : ℚ × ℚ)
    (hwf : wellFormedIndex idx) (hnd : (objKeys idx).Nodup) :
    (∀ c, queryNearest idx p = some c →
        c ∈ allCandidates idx ∧ distSq p c ≤ hoverThresholdPx ^ 2
        ∧ ∀ c₁ ∈ allCandidates idx, distSq p c₁ ≤ hoverThresholdPx ^ 2 →
            distSq p c ≤ distSq p c₁)
    ∧ (queryNearest idx p = none →
        ∀ c₁ ∈ allCandidates idx, ¬distSq p c₁ ≤ hoverThresholdPx ^ 2)
    ∧ (allCandidates idx = [] → queryNearest idx p = none) := by
  have hinv := scanFold_inv p idx (neighborhoodCells (cellKeyFromPoint gridCell p)) none []
    (show scanInv p none [] from rfl)
  rw [List.nil_append] at hinv
  cases hfold : (neighborhoodCells (cellKeyFromPoint gridCell p)).foldl
      (fun acc k => scanCell p acc (cellCandidates idx k)) none with
  | none =>
    rw [hfold] at hinv
    have hempty : ((neighborhoodCells (cellKeyFromPoint gridCell p)).map
        (cellCandidates idx)).flatten = [] := hinv
    refine ⟨?_, ?_, ?_⟩
    · intro c hc
      rw [queryNearest_eq, hfold] at hc
      exact absurd hc (by simp)
    · intro _ c₁ hc₁ hd
      have hseen := within_mem_neighborhood_seen idx p c₁ hwf hnd hc₁ hd
      rw [hempty] at hseen
      exact absurd hseen (List.not_mem_nil c₁)
    · intro _
      rw [queryNearest_eq, hfold]
  | some bd =>
    obtain ⟨b, d⟩ := bd
    rw [hfold] at hinv
    obtain ⟨h1, h2, h3⟩ := hinv
    have hball : b ∈ allCandidates idx :=
      seen_subset_all idx (neighborhoodCells (cellKeyFromPoint gridCell p)) b h2
    by_cases hth : d ≤ hoverThresholdPx ^ 2
    · have hqe : queryNearest idx p = some b := by
        rw [queryNearest_eq, hfold]
        simp [hth]
      refine ⟨?_, ?_, ?_⟩
      · intro c hc
        rw [hqe] at hc
        injection hc with hc
        subst hc
        refine ⟨hball, h1 ▸ hth, ?_⟩
        intro c₁ hc₁ hd₁
        have hseen := within_mem_neighborhood_seen idx p c₁ hwf hnd hc₁ hd₁
        have := h3 c₁ hseen
        rw [h1] at this
        exact this
      · intro hc
        rw [hqe] at hc
        exact absurd hc (by simp)
      · intro he
        rw [he] at hball
        exact absurd hball (List.not_mem_nil b)
    · have hqe : queryNearest idx p = none := by
        rw [queryNearest_eq, hfold]
        simp [hth]
      refine ⟨?_, ?_, ?_⟩
      · intro c hc
        rw [hqe] at hc
        exact absurd hc (by simp)
      · intro _ c₁ hc₁ hd₁
        have hseen := within_mem_neighborhood_seen idx p c₁ hwf hnd hc₁ hd₁
        exact hth (le_trans (h3 c₁ hseen) hd₁)
      · intro _
        exact hqe

/-- Claim C2, witness: on the concrete one-candidate index, the query at
the origin hits the candidate, which is an indexed candidate within the
threshold. -/
theorem queryNearest_correct_w :
    exCand ∈ allCandidates exIdx ∧ distSq exP exCand ≤ hoverThresholdPx ^ 2 := by
  have hwf : wellFormedIndex exIdx := by
    intro kc hkc c hc
    rcases List.mem_singleton.mp hkc with rfl
    rcases List.mem_singleton.mp hc with rfl
    simp [cellKeyFromPoint, exCand]
  have hnd : (objKeys exIdx).Nodup := by decide
  have hq : queryNearest exIdx exP = some exCand := by
    rw [queryNearest_eq]
    have hcell : cellKeyFromPoint gridCell exP = (0, 0) := by
      simp [cellKeyFromPoint, exP]
    rw [hcell]
    simp [-Prod.mk_zero_zero, neighborhoodCells, cellCandidates, exIdx, objGet, scanCell,
      scanStep, distSq, exP, exCand, sq_nonneg, Prod.ext_iff]
  have h := (queryNearest_correct exIdx exP hwf hnd).1 exCand hq
  exact ⟨h.1, h.2.1⟩

/-- Claim C3: with the grid cell size equal to the hover threshold (as the
source sets `state.gridCell = state.hoverThresholdPx`), any candidate whose
squared pixel distance to the query point is within the squared threshold
has its grid cell inside the 3x3 neighborhood of the query point's cell, so
the neighborhood search visits every candidate that can satisfy the
threshold. Stated for every positive cell size used as the threshold. -/
theorem neighborhood_sufficiency (t : ℚ) (ht : 0 < t) (p : ℚ × ℚ) (c : Candidate)
    (h : distSq p c ≤ t ^ 2) :
    cellKeyFromPoint t (c.x, c.y) ∈ neighborhoodCells (cellKeyFromPoint t p) :=
  cell_in_neighborhood t ht p c h

/-- Claim C3, witness: the concrete candidate at the origin is within the
threshold of the origin query point and its cell is in the neighborhood. -/
theorem neighborhood_sufficiency_w :
    cellKeyFromPoint gridCell (exCand.x, exCand.y)
      ∈ neighborhoodCells (cellKeyFromPoint gridCell exP) :=
  neighborhood_sufficiency gridCell (by norm_num [gridCell, hoverThresholdPx]) exP exCand
    (by simp [distSq, exP, exCand, sq_nonneg])

/-- Claim C4: after a reconciliation pass from a state whose fingerprint
and hover tables have no names outside the drawable-layer table (true of
every reachable state: the three tables are created empty together and
always written and erased together), the name set of each of the three
tables is exactly the name set of the merged desired snapshot: no orphans,
no missing entries. -/
theorem sync_tables_match_snapshot (sd hd : List (String × Json)) (s : SyncState)
    (hdata : ∀ m ∈ objKeys s.geojsonData, m ∈ objKeys s.geojsonLayers)
    (hhov : ∀ m ∈ objKeys s.geojsonHoverable, m ∈ objKeys s.geojsonLayers) (n : String) :
    (n ∈ objKeys (syncGeojson sd hd s).state.geojsonLayers
        ↔ n ∈ objKeys (mergeDicts sd hd))
    ∧ (n ∈ objKeys (syncGeojson sd hd s).state.geojsonData
        ↔ n ∈ objKeys (mergeDicts sd hd))
    ∧ (n ∈ objKeys (syncGeojson sd hd s).state.geojsonHoverable
        ↔ n ∈ objKeys (mergeDicts sd hd)) :=
  sync_mem_keys sd hd s n hdata hhov

/-- Claim C4, witness: syncing the snapshot with names A (static) and B
(hover) into the empty state materializes A in the layer table and leaves
no record of the absent name C in the fingerprint table. -/
theorem sync_tables_match_snapshot_w :
    "A" ∈ objKeys (syncGeojson [("A", Json.null)] [("B", Json.null)]
        initState).state.geojsonLayers
    ∧ "C" ∉ objKeys (syncGeojson [("A", Json.null)] [("B", Json.null)]
        initState).state.geojsonData := by
  have h := sync_tables_match_snapshot [("A", Json.null)] [("B", Json.null)] initState
    (by intro m hm; simp [initState, objKeys] at hm)
    (by intro m hm; simp [initState, objKeys] at hm)
  constructor
  · exact (h "A").1.mpr (by decide)
  · intro hc
    have := (h "C").2.1.mp hc
    revert this
    decide

/-- Claim C5: a drawable is re-created for a desired name exactly as
`needsCreate` dictates (the name is new, or its stored fingerprint differs
from the serialization of the desired content, or its stored
hover-eligibility flag differs): when the test fails the stored drawable
reference (modelled by allocation id) is preserved identically; when it
holds the stored drawable is a fresh allocation (id at least the pre-pass
allocation counter). Consequently resubmitting the snapshot of the
previous pass performs zero removals and zero drawable creations and
returns the state unchanged, so every stored drawable reference is the
identical object before and after the second pass. -/
theorem upsert_reuse_and_idempotence (sd hd : List (String × Json)) (s : SyncState) :
    (∀ n e, objGet (mergeDicts sd hd) n = some e →
        (needsCreate s n e = false →
          objGet (syncGeojson sd hd s).state.geojsonLayers n = objGet s.geojsonLayers n)
        ∧ (needsCreate s n e = true →
          ∃ id, objGet (syncGeojson sd hd s).state.geojsonLayers n = some id
            ∧ s.nextLayerId ≤ id))
    ∧ syncGeojson sd hd (syncGeojson sd hd s).state
        = { state := (syncGeojson sd hd s).state, removals := 0, creates := 0,
            rebuilds := 1 } := by
  constructor
  · intro n e hme
    rcases sync_objGet_values sd hd s n e hme with ⟨_, _, v3, v4⟩
    exact ⟨v3, v4⟩
  · exact sync_idempotent sd hd s

/-- Claim C5, witness: overlay A synced into the empty state gets a stored
drawable, and immediately resubmitting the same snapshot leaves the whole
state identical with zero removals and creations. -/
theorem upsert_reuse_and_idempotence_w :
    (objGet (syncGeojson [] [("A", Json.null)] initState).state.geojsonLayers "A").isSome
      = true
    ∧ syncGeojson [] [("A", Json.null)] (syncGeojson [] [("A", Json.null)] initState).state
        = { state := (syncGeojson [] [("A", Json.null)] initState).state,
            removals := 0, creates := 0, rebuilds := 1 } := by
  have h := upsert_reuse_and_idempotence [] [("A", Json.null)] initState
  refine ⟨?_, h.2⟩
  obtain ⟨id, hid, _⟩ := (h.1 "A" ⟨Json.null, true⟩ (by rfl)).2 (by rfl)
  rw [hid]
  rfl

/-- Claim C6: a name present in both the static and the hover-eligible
input groups resolves to a hover-eligible merged overlay record (the hover
group deterministically wins the collision). -/
theorem merge_precedence_hover_wins (sd hd : List (String × Json)) (n : String)
    (_hs : n ∈ objKeys sd) (hh : n ∈ objKeys hd) :
    (objGet (mergeDicts sd hd) n).map Entry.hoverable = some true := by
  rw [mergeDicts_objGet]
  have hlast : (objLast hd n).isSome := (objLast_isSome_iff hd n).mpr hh
  cases hl : objLast hd n with
  | none =>
    rw [hl] at hlast
    simp at hlast
  | some v => simp [hl]

/-- Claim C6, witness: the name A appears in both groups and the merged
record is hover-eligible. -/
theorem merge_precedence_hover_wins_w :
    (objGet (mergeDicts [("A", Json.num 1)] [("A", Json.num 2)]) "A").map Entry.hoverable
      = some true :=
  merge_precedence_hover_wins [("A", Json.num 1)] [("A", Json.num 2)] "A"
    (by decide) (by decide)

/-- Claim C7: the rebuilt index contains a candidate exactly for each
sublayer of an overlay that is hover-eligible and currently attached to
the map surface, where the sublayer has a position accessor and its
projected pixel coordinate is finite in both components. In particular a
point with a non-finite projection is excluded, a sublayer without a
position accessor is skipped silently, features of non-eligible or
detached overlays are not indexed, and the rebuild is a total function
that never aborts. -/
theorem rebuild_filters_and_content (proj : ℚ × ℚ → JsNum × JsNum)
    (layers : List (String × Layer)) (hoverTable : List (String × Bool))
    (attached : List Nat) (c : Candidate) :
    c ∈ allCandidates (rebuildHoverIndex proj layers hoverTable attached)
      ↔ ∃ nl ∈ layers, (objGet hoverTable nl.1).getD false = true
          ∧ nl.2.id ∈ attached ∧ ∃ sub ∈ nl.2.subs, subEmits proj sub c :=
  rebuild_mem proj layers hoverTable attached c

/-- Claim C8: for every processed pointer-move event, a hit moves the hover
marker to the candidate's geographic position, sets its tooltip from the
candidate's feature via `featureText`, makes the marker visible with an
open tooltip, and emits exactly one `hover_layer` notification carrying
the source feature; a miss hides the marker, closes the tooltip and emits
nothing. The label precedence of `featureText` is: a truthy `name`
property wins; otherwise the comma-joined `key: value` rendering of all
properties; a feature without a properties map (or no feature) yields the
empty string. -/
theorem processMove_hit_miss_label (idx : HoverIndex) (p : ℚ × ℚ) (m : HoverMarkerState) :
    (∀ c, queryNearest idx p = some c →
        processMove idx p m
          = ({ pos := c.latlng, tooltip := featureText c.feature, onMap := true,
               tooltipOpen := true }, [HoverEvent.hoverLayer c.feature]))
    ∧ (queryNearest idx p = none →
        processMove idx p m = ({ m with onMap := false, tooltipOpen := false }, []))
    ∧ (∀ (f : Feature) (props : List (String × Json)) (v : Json),
        f.properties = some props → objGet props "name" = some v → v.truthy = true →
          featureText (some f) = v.display)
    ∧ (∀ (f : Feature) (props : List (String × Json)), f.properties = some props →
        (∀ v, objGet props "name" = some v → v.truthy = false) →
          featureText (some f) = joinedProps props)
    ∧ (∀ f : Feature, f.properties = none → featureText (some f) = "")
    ∧ featureText none = "" := by
  obtain ⟨mp, mt, mo, mtt⟩ := m
  refine ⟨?_, ?_, ?_, ?_, ?_, rfl⟩
  · intro c hc
    unfold processMove
    rw [hc]
    cases mo <;> rfl
  · intro hc
    unfold processMove
    rw [hc]
    cases mo <;> rfl
  · intro f props v hp hn htruthy
    obtain ⟨fp⟩ := f
    simp only at hp
    subst hp
    simp [featureText, hn, htruthy]
  · intro f props hp hfalsy
    obtain ⟨fp⟩ := f
    simp only at hp
    subst hp
    cases hn : objGet props "name" with
    | none => simp [featureText, hn]
    | some v => simp [featureText, hn, hfalsy v hn]
  · intro f hp
    obtain ⟨fp⟩ := f
    simp only at hp
    subst hp
    rfl

/-- Claim C8, witness: on the concrete index the processed event is a hit:
the marker moves to the candidate's geographic position (7, 8), the
tooltip is populated from the truthy `name` property, the marker is shown
with an open tooltip, and one `hover_layer` event carrying the source
feature is emitted. -/
theorem processMove_hit_miss_label_w :
    processMove exIdx exP exMarker
      = ({ pos := (7, 8), tooltip := "Tower", onMap := true, tooltipOpen := true },
         [HoverEvent.hoverLayer (some exFeature)]) := by
  have hq : queryNearest exIdx exP = some exCand := by
    rw [queryNearest_eq]
    have hcell : cellKeyFromPoint gridCell exP = (0, 0) := by
      simp [cellKeyFromPoint, exP]
    rw [hcell]
    simp [-Prod.mk_zero_zero, neighborhoodCells, cellCandidates, exIdx, objGet, scanCell,
      scanStep, distSq, exP, exCand, sq_nonneg, Prod.ext_iff]
  have h := (processMove_hit_miss_label exIdx exP exMarker).1 exCand hq
  rw [h]
  rfl

/-- Claim C9: when a name appears in both input groups, the merged record
takes the hover group's feature collection content wholesale, not only the
eligibility flag: the merged entry is the hover content flagged hoverable
no matter what content the static group holds for that name, and the
fingerprint stored by the pass is the serialization of the hover content
(the static content is never fingerprinted). -/
theorem merge_takes_hover_content (sd hd : List (String × Json)) (n : String) (v : Json)
    (_hs : n ∈ objKeys sd) (hl : objLast hd n = some v) (s : SyncState) :
    objGet (mergeDicts sd hd) n = some ⟨v, true⟩
    ∧ objGet (syncGeojson sd hd s).state.geojsonData n = some (Json.stringify v) := by
  have h1 : objGet (mergeDicts sd hd) n = some ⟨v, true⟩ := by
    rw [mergeDicts_objGet, hl]
  refine ⟨h1, ?_⟩
  rcases sync_objGet_values sd hd s n ⟨v, true⟩ h1 with ⟨v1, _, _, _⟩
  exact v1

/-- Claim C9, witness: name A holds content 1 in the static group and 2 in
the hover group; the merged entry is content 2 flagged hoverable and the
stored fingerprint after a pass from the empty state is the serialization
of 2. -/
theorem merge_takes_hover_content_w :
    objGet (mergeDicts [("A", Json.num 1)] [("A", Json.num 2)]) "A"
        = some ⟨Json.num 2, true⟩
    ∧ objGet (syncGeojson [("A", Json.num 1)] [("A", Json.num 2)]
        initState).state.geojsonData "A" = some (Json.stringify (Json.num 2)) :=
  merge_takes_hover_content [("A", Json.num 1)] [("A", Json.num 2)] "A" (Json.num 2)
    (by decide) (by rfl) initState

/-- Claim C10: the hover notification is not deduplicated: on every
processed pointer-move event whose query hits, exactly one `hover_layer`
event carrying the hit candidate's source feature is emitted and the
marker position is re-set to the candidate's position, for every prior
marker state; in particular processing the same event again immediately
after (when the marker already shows this same candidate) emits the same
notification again and re-sets the position again. -/
theorem hover_event_not_deduplicated (idx : HoverIndex) (p : ℚ × ℚ) (c : Candidate)
    (m : HoverMarkerState) (h : queryNearest idx p = some c) :
    ((processMove idx p m).2 = [HoverEvent.hoverLayer c.feature]
      ∧ (processMove idx p m).1.pos = c.latlng)
    ∧ (processMove idx p (processMove idx p m).1).2 = [HoverEvent.hoverLayer c.feature]
    ∧ (processMove idx p (processMove idx p m).1).1.pos = c.latlng := by
  obtain ⟨mp, mt, mo, mtt⟩ := m
  unfold processMove
  rw [h]
  cases mo <;> exact ⟨⟨rfl, rfl⟩, rfl, rfl⟩

/-- Claim C10, witness: processing the concrete hit twice in a row still
emits the `hover_layer` notification on the second processing. -/
theorem hover_event_not_deduplicated_w :
    (processMove exIdx exP (processMove exIdx exP exMarker).1).2
      = [HoverEvent.hoverLayer (some exFeature)] := by
  have hq : queryNearest exIdx exP = some exCand := by
    rw [queryNearest_eq]
    have hcell : cellKeyFromPoint gridCell exP = (0, 0) := by
      simp [cellKeyFromPoint, exP]
    rw [hcell]
    simp [-Prod.mk_zero_zero, neighborhoodCells, cellCandidates, exIdx, objGet, scanCell,
      scanStep, distSq, exP, exCand, sq_nonneg, Prod.ext_iff]
  exact (hover_event_not_deduplicated exIdx exP exCand exMarker hq).2.1
